import Mathlib

/-!
Verification of the crawl-and-extract engine of the Healthcare-Costs-Web-Crawler
repository. Python functions from hospital_crawler.py, hospital_finder.py,
crawler/web_crawler.py, crawler/page_parser.py, data/cost_extractor.py and
hospital_analysis.py are shallowly embedded as executable Lean definitions;
network and third-party-library effects (requests, BeautifulSoup, pandas) are
modelled as explicit oracle parameters, so that every theorem quantifies over
all possible responses of those collaborators.

Page texts and URLs are modelled as lists of characters; the Python substring
test (the in operator) is contiguous-sublist containment, and the price regexes
of the source are implemented as direct deterministic matchers (the patterns
involved have no backtracking ambiguity).
-/

namespace HCWC

/-- Page text, URLs, and all other Python strings are lists of characters. -/
abbrev Text := List Char

/-- Python lower() restricted to the ASCII texts handled here. -/
def lowerT (t : Text) : Text := t.map Char.toLower

/-- Does hay start with needle (Python startswith on strings)? -/
def startsWithT : Text → Text → Bool
  | _, [] => true
  | [], _ :: _ => false
  | h :: hs, n :: ns => h == n && startsWithT hs ns

/-- Python substring containment, the expression needle in hay. -/
def containsT : Text → Text → Bool
  | _, [] => true
  | [], _ :: _ => false
  | h :: hs, n :: ns => (h == n && startsWithT hs ns) || containsT hs (n :: ns)

/-- Python endswith: needle is a suffix of hay. -/
def endsWithT (hay needle : Text) : Bool :=
  startsWithT hay.reverse needle.reverse

/-- Characters matched by the regex class backslash-s in Python. -/
def isPySpace (c : Char) : Bool :=
  c == ' ' || c == '\t' || c == '\n' || c == '\r' || c == '\x0b' || c == '\x0c'

/-- Characters matched by the regex word class, used for word boundaries. -/
def isWordChar (c : Char) : Bool :=
  c.isAlphanum || c == '_'

/-- Characters matched by the class [0-9,] of the price regexes. -/
def isDigitComma (c : Char) : Bool :=
  c.isDigit || c == ','

/-!
### The price regex of hospital_finder.py and hospital_crawler.py

The core pattern is [\$]?\s?([0-9,]+(?:\.[0-9]{2})?). The leading optional
dollar sign and optional single whitespace are deterministic here: whenever
they are present they must be consumed, since neither can match the first
digit-or-comma character. The one-or-more class is greedy and the optional
two-decimal tail commits exactly when a dot followed by two digits follows,
so a single left-to-right scan reproduces the Python engine.
-/

/-- Take the maximal prefix of characters satisfying p; return it and the rest. -/
def takeRun (p : Char → Bool) : Text → Text × Text
  | [] => ([], [])
  | c :: cs =>
    if p c then
      let (run, rest) := takeRun p cs
      (c :: run, rest)
    else ([], c :: cs)

/-- Match the core price pattern at the head of s.
Returns the capture group (digits, commas, optional dot and two decimals)
together with the unconsumed remainder of s, or none. -/
def matchPriceCore (s : Text) : Option (Text × Text) :=
  -- optional dollar sign
  let s1 := match s with
    | '$' :: rest => rest
    | _ => s
  -- optional single whitespace character
  let s2 := match s1 with
    | c :: rest => if isPySpace c then rest else s1
    | [] => s1
  match takeRun isDigitComma s2 with
  | ([], _) => none
  | (run, rest) =>
    match rest with
    | '.' :: d1 :: d2 :: rest2 =>
      if d1.isDigit && d2.isDigit then
        some (run ++ ['.', d1, d2], rest2)
      else some (run, rest)
    | _ => some (run, rest)

/-- Match the prefix part keyword[\s:]* of the keyword-anchored price patterns
at the head of s; returns the remainder after the keyword and the separator
run, or none when s does not start with the keyword. -/
def matchKeywordSep (kw : Text) (s : Text) : Option Text :=
  if startsWithT s kw then
    let rest := s.drop kw.length
    some (takeRun (fun c => isPySpace c || c == ':') rest).2
  else none

/-- One attempt of the full price pattern (optional keyword prefix, then the
core pattern) at the head of s. -/
def matchPriceAt (kw : Option Text) (s : Text) : Option (Text × Text) :=
  match kw with
  | none => matchPriceCore s
  | some k =>
    match matchKeywordSep k s with
    | none => none
    | some rest => matchPriceCore rest

/-- The re.findall scan: try the pattern at every position, left to right and
non-overlapping, collecting the capture groups. A successful match always
consumes at least one character and otherwise the scan advances one character,
so a fuel of the text length is sufficient and the fuel is never exhausted. -/
def findallAux (kw : Option Text) : Nat → Text → List Text
  | 0, _ => []
  | _ + 1, [] => []
  | fuel + 1, c :: cs =>
    match matchPriceAt kw (c :: cs) with
    | some (grp, rest) => grp :: findallAux kw fuel rest
    | none => findallAux kw fuel cs

/-- All capture groups of the price pattern in s, in scan order. -/
def findallPrices (kw : Option Text) (s : Text) : List Text :=
  findallAux kw s.length s

/-- The re.search scan for the pattern \$([\d,]+(\.\d{2})?): leftmost match,
returning the full matched text (group 0, including the dollar sign). The
pattern requires a literal dollar sign, then behaves like the core pattern. -/
def searchDollarAt (s : Text) : Option Text :=
  match s with
  | '$' :: rest =>
    match takeRun isDigitComma rest with
    | ([], _) => none
    | (run, rest2) =>
      match rest2 with
      | '.' :: d1 :: d2 :: _ =>
        if d1.isDigit && d2.isDigit then some ('$' :: run ++ ['.', d1, d2])
        else some ('$' :: run)
      | _ => some ('$' :: run)
  | _ => none

/-- Leftmost match of the dollar-anchored price pattern in s, or none. -/
def searchDollar : Text → Option Text
  | [] => none
  | c :: cs =>
    match searchDollarAt (c :: cs) with
    | some m => some m
    | none => searchDollar cs

/-!
### Python float parsing of the captured groups

The captured group consists of digits and commas with an optional dot and two
decimals. The source removes the commas and calls float; float raises
ValueError exactly when no digit is left (for example a group of only commas).
Prices are represented as integral cents, which is exact for these groups;
the function asDollars recovers the dollar value for theorem statements.
-/

/-- Numeric value of a digit string (most significant first). -/
def digitsToNat (ds : Text) : Nat :=
  ds.foldl (fun acc c => acc * 10 + (c.toNat - '0'.toNat)) 0

/-- Python float(group.replace(",", "")) for a captured price group, in
integral cents: none models ValueError. Every group captured by the embedded
patterns has either no decimal tail or exactly two decimal digits, so its
float value is an exact integral number of cents, and all comparisons the
source performs on these floats (the 10 and 50000 bounds, sorting, min, max)
coincide with the corresponding comparisons on cents. -/
def parsePrice (grp : Text) : Option Nat :=
  let cleaned := grp.filter (fun c => !(c == ','))
  let intPart := (cleaned.takeWhile (fun c => c.isDigit))
  let rest := cleaned.dropWhile (fun c => c.isDigit)
  if intPart.isEmpty && rest.isEmpty then none
  else
    match rest with
    | [] => some (digitsToNat intPart * 100)
    | '.' :: decs => some (digitsToNat intPart * 100 + digitsToNat decs)
    | _ => none

/-- Dollar value of a price in cents, used to state bounds as the source
writes them. -/
def asDollars (cents : Nat) : ℚ := (cents : ℚ) / 100

/-!
### Literal occurrence scans (re.finditer on escaped literals)
-/

/-- First element of a list as an option, preferring the pattern: the
character adjacent to a word boundary at the start of a match. -/
def headOr (pat s : Text) : Option Char :=
  match pat with
  | c :: _ => some c
  | [] => s.head?

/-- Word-character test lifted to an optional character; out of the string
counts as a non-word character. -/
def wordish : Option Char → Bool
  | none => false
  | some c => isWordChar c

/-- The regex word-boundary test between two adjacent positions. -/
def bdOK (l r : Option Char) : Bool :=
  wordish l != wordish r

/-- Scan for non-overlapping occurrences of the literal pat, returning
(start, end) index pairs. Fuel is one more than the remaining text length,
which the scan never exhausts. -/
def litPosAux (pat : Text) : Nat → Nat → Text → List (Nat × Nat)
  | 0, _, _ => []
  | fuel + 1, i, s =>
    if startsWithT s pat then
      match s with
      | [] => [(i, i + pat.length)]
      | _ :: _ =>
        let step := max pat.length 1
        (i, i + pat.length) :: litPosAux pat fuel (i + step) (s.drop step)
    else
      match s with
      | [] => []
      | _ :: cs => litPosAux pat fuel (i + 1) cs

/-- All (start, end) spans of the literal pat in s, as re.finditer yields. -/
def litPos (pat s : Text) : List (Nat × Nat) :=
  litPosAux pat (s.length + 1) 0 s

/-- Scan for non-overlapping occurrences of the literal pat with word
boundaries on both sides, tracking the character before the scan position. -/
def litPosWBAux (pat : Text) : Nat → Nat → Option Char → Text → List (Nat × Nat)
  | 0, _, _, _ => []
  | fuel + 1, i, prev, s =>
    let okStart := bdOK prev (headOr pat s)
    let after := s.drop pat.length
    let okEnd := bdOK (match pat.getLast? with | some c => some c | none => prev) after.head?
    if startsWithT s pat && okStart && okEnd then
      match s with
      | [] => [(i, i + pat.length)]
      | _ :: _ =>
        let step := max pat.length 1
        (i, i + pat.length) ::
          litPosWBAux pat fuel (i + step) ((s.take step).getLast?) (s.drop step)
    else
      match s with
      | [] => []
      | c :: cs => litPosWBAux pat fuel (i + 1) (some c) cs

/-- All spans of the pattern backslash-b literal backslash-b in s. -/
def litPosWB (pat s : Text) : List (Nat × Nat) :=
  litPosWBAux pat (s.length + 1) 0 none s

/-- Python slice text[a:b] (indices already clamped by the callers). -/
def slice (t : Text) (a b : Nat) : Text :=
  (t.drop a).take (b - a)

/-- First defined value in a list of options, in order. -/
def firstSome : List (Option α) → Option α
  | [] => none
  | some a :: _ => some a
  | none :: rest => firstSome rest

/-!
### Page and price-result records

A crawled page as built by crawl_hospital_website (both variants): url, title,
whitespace-normalized text, BFS depth. A price result as built by
_extract_price_from_page and find_procedure_pricing.
-/

structure PageInfo where
  url : Text
  title : Text
  text : Text
  depth : Nat
deriving DecidableEq

structure PriceResult where
  found : Bool
  price : Option Nat
  currency : Text
  source_url : Option Text
  context : Option Text
  pdf_links : Option (List Text) := none
deriving DecidableEq

/-- The not-found result dictionary initialised by both extractors. -/
def baseResult (src : Option Text) : PriceResult :=
  { found := false, price := none, currency := "USD".toList,
    source_url := src, context := none }

/-!
### hospital_finder.py _extract_price_from_page (lines 386 to 447)

No pricing-page gate, no sanity bound: windows of 200 characters around each
occurrence of the code (and of the procedure name, case-insensitively), the
bare price pattern, and the first match of the first window that has any
match is returned as the price.
-/

/-- One window of the hospital_finder extractor: first captured group is
parsed; a ValueError falls through to the next window. -/
def hfExtractWindow (w : Text) : Option (Nat × Text) :=
  match findallPrices none w with
  | [] => none
  | grp :: _ =>
    match parsePrice grp with
    | some p => some (p, w)
    | none => none

/-- The hospital_finder variant of _extract_price_from_page. -/
def hfExtract (page : PageInfo) (cpt : Text) (proc : Option Text) : PriceResult :=
  let text := page.text
  let cptWins := (litPos cpt text).map
    (fun sp => slice text (sp.1 - 200) (min text.length (sp.2 + 200)))
  let procWins :=
    match proc with
    | none => []
    | some nm => (litPos (lowerT nm) (lowerT text)).map
        (fun sp => slice text (sp.1 - 200) (min text.length (sp.2 + 200)))
  match firstSome ((cptWins ++ procWins).map hfExtractWindow) with
  | some pw =>
    { baseResult (some page.url) with
        found := true, price := some pw.1, context := some pw.2 }
  | none => baseResult (some page.url)

/-!
### hospital_crawler.py _extract_price_from_page (lines 361 to 449)

Lowercased text, a pricing-indicator gate, windows of 500 characters around
word-bounded occurrences of the code and the procedure name, a cascade of six
price patterns, the 10 to 50000 sanity bound, and the sort-and-take-middle
selection.
-/

/-- The pricing_indicators list of hospital_crawler. -/
def hcIndicators : List Text :=
  ["price".toList, "cost".toList, "charge".toList, "fee".toList, "rate".toList,
   "pricing".toList, "estimate".toList, "transparency".toList, "financial".toList]

/-- The six price patterns of hospital_crawler, as optional keyword anchors
for the shared core pattern. -/
def hcPatterns : List (Option Text) :=
  [none, some "cost".toList, some "price".toList, some "charge".toList,
   some "fee".toList, some "rate".toList]

/-- Ordering of price candidates by price, used by the Python list sort. -/
def priceLE (a b : Nat × Text) : Prop := a.1 ≤ b.1

instance : DecidableRel priceLE := fun a b => inferInstanceAs (Decidable (a.1 ≤ b.1))

instance : IsTotal (Nat × Text) priceLE := ⟨fun a b => le_total a.1 b.1⟩

instance : IsTrans (Nat × Text) priceLE := ⟨fun _ _ _ h1 h2 => le_trans h1 h2⟩

/-- The filter keeping only parses within the sanity bound, paired with
their window (hospital_crawler lines 420 to 431). -/
def validPrices (w : Text) (grps : List Text) : List (Nat × Text) :=
  grps.filterMap (fun g =>
    match parsePrice g with
    | some p => if 10 * 100 ≤ p ∧ p ≤ 50000 * 100 then some (p, w) else none
    | none => none)

/-- The selection of hospital_crawler lines 433 to 442: sort ascending by
price; more than two candidates take the middle index, otherwise the first. -/
def choosePrice (valid : List (Nat × Text)) : Option (Nat × Text) :=
  match valid with
  | [] => none
  | _ :: _ =>
    let s := List.insertionSort priceLE valid
    if valid.length > 2 then s.get? (valid.length / 2) else s.head?

/-- One window of the hospital_crawler extractor: the cascade of patterns,
each filtered by the sanity bound; the first pattern with a valid price
yields the selected candidate. -/
def hcExtractWindow (w : Text) : Option (Nat × Text) :=
  firstSome (hcPatterns.map (fun kw =>
    match findallPrices kw w with
    | [] => none
    | grps@(_ :: _) => choosePrice (validPrices w grps)))

/-- The hospital_crawler variant of _extract_price_from_page. -/
def hcExtract (page : PageInfo) (cpt : Text) (proc : Option Text) : PriceResult :=
  let text := lowerT page.text
  let url := lowerT page.url
  if hcIndicators.any (fun ind => containsT text ind || containsT url ind) then
    let cptWins := (litPosWB cpt text).map
      (fun sp => slice text (sp.1 - 500) (min text.length (sp.2 + 500)))
    let procWins :=
      match proc with
      | none => []
      | some nm => (litPosWB (lowerT nm) text).map
          (fun sp => slice text (sp.1 - 500) (min text.length (sp.2 + 500)))
    match firstSome ((cptWins ++ procWins).map hcExtractWindow) with
    | some pw =>
      { baseResult (some page.url) with
          found := true, price := some pw.1, context := some pw.2 }
    | none => baseResult (some page.url)
  else baseResult (some page.url)

/-!
### find_procedure_pricing (hospital_crawler.py lines 246 to 359 and
hospital_finder.py lines 313 to 383)

Network effects are oracle parameters: the direct probe of the transparency
paths, URL parsing and joining, the website crawl (whose pages arrive as a
list), and the PDF-resource scan. The theorems quantify over all oracles.
-/

/-- Outcome of one requests.get of a direct transparency URL, after the
BeautifulSoup processing: an exception, or a status code with the page title
and the extracted text. -/
inductive DirectOutcome where
  | raise : DirectOutcome
  | resp (status : Nat) (title : Option Text) (text : Text) : DirectOutcome

/-- The external collaborators of find_procedure_pricing. -/
structure FppOracles where
  parseBase : Text → Text
  joinUrl : Text → Text → Text
  probe : Text → DirectOutcome
  crawl : Text → Nat → Nat → List PageInfo
  pdfFind : List PageInfo → List Text

/-- The price_page_keywords list of hospital_crawler.find_procedure_pricing. -/
def priceKeywordsHC : List Text :=
  ["price".toList, "pricing".toList, "cost".toList, "charge".toList, "fee".toList,
   "rate".toList, "estimate".toList, "financial".toList, "bill".toList,
   "payment".toList, "transparency".toList, "patient charges".toList,
   "service charges".toList, "chargemaster".toList, "standard charges".toList,
   "price list".toList, "price transparency".toList, "cost estimator".toList]

/-- The price_page_keywords list of hospital_finder.find_procedure_pricing. -/
def priceKeywordsHF : List Text :=
  ["price".toList, "pricing".toList, "cost".toList, "charge".toList, "fee".toList,
   "rate".toList, "estimate".toList, "financial".toList, "bill".toList,
   "payment".toList, "transparency".toList, "patient charges".toList,
   "service charges".toList]

/-- The transparency_urls paths probed directly by hospital_crawler. -/
def transparencyPaths : List Text :=
  ["/pricing".toList, "/prices".toList, "/chargemaster".toList, "/charges".toList,
   "/price-transparency".toList, "/standard-charges".toList,
   "/patient-financial".toList, "/cost-estimator".toList, "/billing".toList]

/-- The strong indicator terms of the elif branch of hospital_crawler. -/
def strongTerms : List Text :=
  ["price list".toList, "price transparency".toList, "chargemaster".toList,
   "standard charges".toList]

/-- Join of a list of texts with a separator, the Python join. -/
def joinT (sep : Text) : List Text → Text
  | [] => []
  | [x] => x
  | x :: y :: rest => x ++ sep ++ joinT sep (y :: rest)

/-- The context message of the pdf_links result. -/
def pdfMsg (pdfs : List Text) : Text :=
  "Pricing information might be available in these documents: ".toList
    ++ joinT ", ".toList (pdfs.take 3)

/-- One direct probe of a candidate transparency path (hospital_crawler
lines 274 to 307): any exception is swallowed, a 200 page whose text has a
pricing keyword is fed to the extractor, and only a found result is kept. -/
def probeOne (o : FppOracles) (baseUrl cpt : Text) (proc : Option Text)
    (path : Text) : Option PriceResult :=
  let direct := o.joinUrl baseUrl path
  match o.probe direct with
  | .raise => none
  | .resp status title text =>
    if status == 200 then
      let t := lowerT text
      if priceKeywordsHC.any (fun kw => containsT t kw) then
        let pi : PageInfo := ⟨direct, title.getD "No title".toList, t, 0⟩
        let r := hcExtract pi cpt proc
        if r.found then some r else none
      else none
    else none

/-- The relevance filter of hospital_crawler.find_procedure_pricing
(lines 315 to 337), including the elif branch on the strong terms. -/
def hcRelevant (cpt : Text) (proc : Option Text) (pg : PageInfo) : Bool :=
  let pt := lowerT pg.text
  let ptitle := lowerT pg.title
  let purl := lowerT pg.url
  let isPricing := priceKeywordsHC.any
    (fun kw => containsT pt kw || containsT ptitle kw || containsT purl kw)
  let hasCpt := containsT pt cpt
  let hasName := match proc with
    | none => true
    | some nm => containsT pt (lowerT nm)
  (isPricing && (hasCpt || hasName)) || strongTerms.any (fun tm => containsT pt tm)

/-- The relevance filter of hospital_finder.find_procedure_pricing
(lines 346 to 363): text and title only, and no strong-term branch. -/
def hfRelevant (cpt : Text) (proc : Option Text) (pg : PageInfo) : Bool :=
  let pt := lowerT pg.text
  let ptitle := lowerT pg.title
  let isPricing := priceKeywordsHF.any
    (fun kw => containsT pt kw || containsT ptitle kw)
  let hasCpt := containsT pt cpt
  let hasName := match proc with
    | none => true
    | some nm => containsT pt (lowerT nm)
  isPricing && (hasCpt || hasName)

/-- The hospital_crawler variant of find_procedure_pricing. -/
def hcFPP (o : FppOracles) (url cpt : Text) (proc : Option Text)
    (maxDepth : Nat) : PriceResult :=
  if url.isEmpty then baseResult none
  else
    let url := if startsWithT url "http://".toList || startsWithT url "https://".toList
      then url else "https://".toList ++ url
    let baseUrl := o.parseBase url
    match firstSome (transparencyPaths.map (probeOne o baseUrl cpt proc)) with
    | some r => r
    | none =>
      let pages := o.crawl url maxDepth 30
      let relevant := pages.filter (hcRelevant cpt proc)
      match firstSome (relevant.map (fun pg =>
          let r := hcExtract pg cpt proc
          if r.found then some r else none)) with
      | some r => r
      | none =>
        let pdfs := o.pdfFind pages
        if pdfs.isEmpty then baseResult none
        else { baseResult none with
                 context := some (pdfMsg pdfs), pdf_links := some pdfs }

/-- The hospital_finder variant of find_procedure_pricing. -/
def hfFPP (o : FppOracles) (url cpt : Text) (proc : Option Text)
    (maxDepth : Nat) : PriceResult :=
  if url.isEmpty then baseResult none
  else
    let pages := o.crawl url maxDepth 20
    let relevant := pages.filter (hfRelevant cpt proc)
    match firstSome (relevant.map (fun pg =>
        let r := hfExtract pg cpt proc
        if r.found then some r else none)) with
    | some r => r
    | none =>
      let pdfs := o.pdfFind pages
      if pdfs.isEmpty then baseResult none
      else { baseResult none with
               context := some (pdfMsg pdfs), pdf_links := some pdfs }

/-!
### The crawl loops

Three BFS loops are embedded: crawl_hospital_website of hospital_finder.py
(lines 206 to 310), crawl_hospital_website of hospital_crawler.py (lines 125
to 244), and crawl_hospital_site of crawler/web_crawler.py (lines 31 to 99).
Each fetch outcome, URL join, and URL parse is an oracle. The state records
the frontier queue, the visited set (as a list of its members), the result
pages, the page counter, the ordered list of URLs passed to requests.get,
and a trace of sleep and fetch events in execution order. Each loop is run
by a fuel-indexed iterator; every theorem quantifies over the fuel, and the
concrete runs used as witnesses end with an empty queue, hence with the
state the Python loop terminates in.
-/

/-- Observable events of a crawl: the inter-request delay and a page fetch. -/
inductive Event where
  | sleep : Event
  | fetch (url : Text) : Event
deriving DecidableEq

/-- Outcome of requests.get inside the two crawl_hospital_website loops:
an exception, or a status with the page title, extracted text, and the
href attributes of the anchor tags (plus the content type for the
hospital_crawler variant, which checks it). -/
inductive FetchOutcome where
  | raise : FetchOutcome
  | ok (status : Nat) (contentType : Text) (title : Option Text)
      (text : Text) (links : List Text) : FetchOutcome

/-- The web as seen by the two crawl_hospital_website loops. -/
structure CrawlWeb where
  fetch : Text → FetchOutcome
  resolve : Text → Text → Text
  netlocOf : Text → Text

/-- State of one crawl_hospital_website loop. -/
structure CrawlState where
  queue : List (Text × Nat)
  visited : List Text
  results : List PageInfo
  pageCount : Nat
  fetched : List Text
  trace : List Event
deriving DecidableEq

/-- The link-scheme prefixes skipped by both crawl loops. -/
def skipSchemes : List Text :=
  ["#".toList, "javascript:".toList, "mailto:".toList, "tel:".toList]

/-- One pass of the link loop of both crawl variants: skip the
non-navigational schemes, resolve against the current URL, stay on the
domain, and enqueue only URLs not in the visited set, adding them to the
visited set. -/
def enqueueOne (w : CrawlWeb) (domain curUrl : Text) (depth : Nat)
    (st : CrawlState) (href : Text) : CrawlState :=
  if skipSchemes.any (fun p => startsWithT href p) then st
  else
    let full := w.resolve curUrl href
    if w.netlocOf full != domain then st
    else if st.visited.contains full then st
    else { st with visited := full :: st.visited,
                   queue := st.queue ++ [(full, depth + 1)] }

/-- The link loop of both crawl_hospital_website variants. -/
def enqueueLinks (w : CrawlWeb) (domain curUrl : Text) (depth : Nat)
    (links : List Text) (st : CrawlState) : CrawlState :=
  links.foldl (enqueueOne w domain curUrl depth) st

/-- One iteration of the hospital_finder crawl loop body. -/
def hfCrawlStep (w : CrawlWeb) (domain : Text) (maxDepth : Nat)
    (st : CrawlState) : CrawlState :=
  match st.queue with
  | [] => st
  | (url, depth) :: rest =>
    let st := { st with queue := rest }
    if maxDepth < depth then st
    else
      -- time.sleep(1), then requests.get(current_url, ...)
      let st := { st with trace := st.trace ++ [Event.sleep] ++ [Event.fetch url],
                          fetched := st.fetched ++ [url] }
      match w.fetch url with
      | .raise => st
      | .ok status _ title text links =>
        if 400 ≤ status then st  -- raise_for_status, caught by the except
        else
          let pg : PageInfo := ⟨url, title.getD "No title".toList, text, depth⟩
          let st := { st with results := st.results ++ [pg],
                              pageCount := st.pageCount + 1 }
          if depth < maxDepth then enqueueLinks w domain url depth links st
          else st

/-- The binary extensions skipped before fetching by hospital_crawler. -/
def binExtsHC : List Text :=
  [".pdf".toList, ".jpg".toList, ".jpeg".toList, ".png".toList, ".gif".toList,
   ".doc".toList, ".docx".toList, ".ppt".toList, ".pptx".toList,
   ".xls".toList, ".xlsx".toList]

/-- The URL exclusion substrings of hospital_crawler (the re.search of an
alternation of literals, case-insensitive). -/
def exclPats : List Text :=
  ["calendar".toList, "login".toList, "signin".toList, "signup".toList,
   "contact".toList, "feedback".toList, "search".toList, "404".toList,
   "403".toList, "500".toList]

/-- One iteration of the hospital_crawler crawl loop body: random delay
first, then the extension and exclusion-pattern skips, the fetch, the
raise_for_status, and the content-type gate. -/
def hcCrawlStep (w : CrawlWeb) (domain : Text) (maxDepth : Nat)
    (st : CrawlState) : CrawlState :=
  match st.queue with
  | [] => st
  | (url, depth) :: rest =>
    let st := { st with queue := rest }
    if maxDepth < depth then st
    else
      -- time.sleep(random.uniform(0.5, 2))
      let st := { st with trace := st.trace ++ [Event.sleep] }
      if binExtsHC.any (fun e => endsWithT (lowerT url) e) then st
      else if exclPats.any (fun p => containsT (lowerT url) p) then st
      else
        let st := { st with trace := st.trace ++ [Event.fetch url],
                            fetched := st.fetched ++ [url] }
        match w.fetch url with
        | .raise => st
        | .ok status contentType title text links =>
          if 400 ≤ status then st  -- raise_for_status
          else if !containsT (lowerT contentType) "text/html".toList then st
          else
            let pg : PageInfo := ⟨url, title.getD "No title".toList, text, depth⟩
            let st := { st with results := st.results ++ [pg],
                                pageCount := st.pageCount + 1 }
            if depth < maxDepth then enqueueLinks w domain url depth links st
            else st

/-- The while loop of both crawl_hospital_website variants, driven by the
step function of the variant: loop while the queue is nonempty and fewer
than max_pages pages have been extracted. -/
def crawlRun (step : CrawlState → CrawlState) (maxPages : Nat) :
    Nat → CrawlState → CrawlState
  | 0, st => st
  | fuel + 1, st =>
    if !st.queue.isEmpty && st.pageCount < maxPages then
      crawlRun step maxPages fuel (step st)
    else st

/-- Initial crawl state: the normalized seed URL with depth 0 is queued and
visited. -/
def initCrawl (url : Text) : CrawlState :=
  ⟨[(url, 0)], [url], [], 0, [], []⟩

/-- URL normalization shared by the crawl entry points: prefix https:// when
no scheme is present. -/
def normalizeUrl (url : Text) : Text :=
  if startsWithT url "http://".toList || startsWithT url "https://".toList
  then url else "https://".toList ++ url

/-- crawl_hospital_website of hospital_finder.py: final state of the loop.
An empty URL returns the empty state before any work. -/
def hfCrawl (w : CrawlWeb) (url : Text) (maxDepth maxPages fuel : Nat) :
    CrawlState :=
  if url.isEmpty then ⟨[], [], [], 0, [], []⟩
  else
    let url := normalizeUrl url
    let domain := w.netlocOf url
    crawlRun (hfCrawlStep w domain maxDepth) maxPages fuel (initCrawl url)

/-- crawl_hospital_website of hospital_crawler.py: final state of the loop. -/
def hcCrawl (w : CrawlWeb) (url : Text) (maxDepth maxPages fuel : Nat) :
    CrawlState :=
  if url.isEmpty then ⟨[], [], [], 0, [], []⟩
  else
    let url := normalizeUrl url
    let domain := w.netlocOf url
    crawlRun (hcCrawlStep w domain maxDepth) maxPages fuel (initCrawl url)

/-!
### crawler/web_crawler.py: link prioritization and crawl_hospital_site

Anchors are raw (href, anchor text) pairs as BeautifulSoup yields them;
urljoin and urlparse are oracles mapping a URL to its netloc and path.
-/

/-- An anchor tag with an href attribute, as found by soup.find_all. -/
structure RawLink where
  href : Text
  anchor : Text
deriving DecidableEq

/-- The cost_keywords vocabulary of HospitalWebCrawler. -/
def costKeywords : List Text :=
  ["price".toList, "cost".toList, "charge".toList, "billing".toList,
   "financial".toList, "payment".toList, "insurance".toList,
   "transparency".toList, "estimat".toList, "fee".toList, "patient".toList,
   "surgery".toList, "procedure".toList, "cpt".toList, "service".toList,
   "cash".toList, "pricing".toList]

/-- The binary media extensions filtered before scoring by web_crawler. -/
def binExtsWC : List Text :=
  [".jpg".toList, ".png".toList, ".gif".toList, ".pdf".toList,
   ".mp3".toList, ".mp4".toList]

/-- The machine-readable extensions rewarded by the prioritizer. -/
def mrExts : List Text :=
  [".csv".toList, ".xlsx".toList, ".json".toList, ".xml".toList]

/-- Python str.strip: drop leading and trailing whitespace. -/
def stripT (t : Text) : Text :=
  ((t.dropWhile isPySpace).reverse.dropWhile isPySpace).reverse

/-- The priority computation of _extract_and_prioritize_links (lines 126 to
151), exactly as the source accumulates it: lt is the lowercased stripped
anchor text, ut the lowercased URL path. -/
def wcScore (cpt lt ut : Text) : Nat :=
  let p0 : Nat := 0
  let p1 := if containsT lt cpt || containsT ut cpt then p0 + 50 else p0
  let p2 := costKeywords.foldl (fun p kw =>
    let p := if containsT lt kw then p + 10 else p
    if containsT ut kw then p + 5 else p) p1
  let p3 := if endsWithT ut ".pdf".toList then
      (if costKeywords.any (fun kw => containsT lt kw) then p2 + 15 else p2)
    else p2
  if mrExts.any (fun e => containsT ut e) then
    (if costKeywords.any (fun kw => containsT lt kw) then p3 + 20 else p3)
  else p3

/-- The oracles of the web_crawler loop: fetch, urljoin, and urlparse
(netloc and path of a full URL). -/
structure WcWeb where
  fetchPage : Text → Option (Nat × Option Text × List RawLink)
  resolve : Text → Text → Text
  parseUrl : Text → Text × Text

/-- The pre-filter and scoring body of _extract_and_prioritize_links for one
anchor: none when the link is skipped, otherwise the resolved URL with its
priority computed by score. -/
def wcScoredLink (w : WcWeb) (baseUrl baseDomain cpt : Text)
    (score : Text → Text → Text → Nat) (l : RawLink) : Option (Text × Nat) :=
  if l.href.isEmpty || skipSchemes.any (fun p => startsWithT l.href p) then none
  else
    let full := w.resolve baseUrl l.href
    let (netloc, path) := w.parseUrl full
    if netloc != baseDomain
        || binExtsWC.any (fun e => containsT (lowerT path) e) then none
    else
      let lt := stripT (lowerT l.anchor)
      let ut := lowerT path
      some (full, score cpt lt ut)

/-- Descending order on scored links, the key and reverse flag of the final
Python sorted call. -/
def scoreGE (a b : Text × Nat) : Prop := b.2 ≤ a.2

instance : DecidableRel scoreGE := fun a b => inferInstanceAs (Decidable (b.2 ≤ a.2))

instance : IsTotal (Text × Nat) scoreGE := ⟨fun a b => le_total b.2 a.2⟩

instance : IsTrans (Text × Nat) scoreGE := ⟨fun _ _ _ h1 h2 => le_trans h2 h1⟩

/-- _extract_and_prioritize_links: pre-filter, score, and sort by priority
descending (a stable sort, as in Python). -/
def wcPrioritize (w : WcWeb) (baseUrl baseDomain cpt : Text)
    (raws : List RawLink) : List (Text × Nat) :=
  List.insertionSort scoreGE
    (raws.filterMap (wcScoredLink w baseUrl baseDomain cpt wcScore))

/-- State of the crawl_hospital_site loop. The result field holds the found
cost information (opaque here) and stops the loop, modelling the early
return of the source. -/
structure WcState where
  queue : List Text
  visited : List Text
  pagesCrawled : Nat
  fetched : List Text
  trace : List Event
  result : Option Text
deriving DecidableEq

/-- One pass of the link loop of crawl_hospital_site: enqueue a scored link
that is unvisited and on the domain, adding it to the visited set. -/
def wcEnqueueOne (w : WcWeb) (baseDomain : Text) (st : WcState)
    (lp : Text × Nat) : WcState :=
  if !st.visited.contains lp.1 && (w.parseUrl lp.1).1 == baseDomain then
    { st with queue := st.queue ++ [lp.1], visited := lp.1 :: st.visited }
  else st

/-- One iteration of the crawl_hospital_site loop body. The fetch oracle
yields none for an exception, or the status, the _find_cost_info outcome
(opaque payload), and the raw links of the page. The delay runs only at the
end of a fully processed iteration. -/
def wcCrawlStep (w : WcWeb) (costInfo : Text → Option Text)
    (baseDomain cpt : Text) (st : WcState) : WcState :=
  match st.queue with
  | [] => st
  | url :: rest =>
    let st := { st with queue := rest, pagesCrawled := st.pagesCrawled + 1 }
    let st := { st with fetched := st.fetched ++ [url],
                        trace := st.trace ++ [Event.fetch url] }
    match w.fetchPage url with
    | none => st
    | some (status, _, raws) =>
      if status != 200 then st
      else
        match costInfo url with
        | some info => { st with result := some info }
        | none =>
          let links := wcPrioritize w url baseDomain cpt raws
          let st := links.foldl (wcEnqueueOne w baseDomain) st
          { st with trace := st.trace ++ [Event.sleep] }

/-- The while loop of crawl_hospital_site: loop while the queue is nonempty,
fewer than max_pages pages were dequeued, and no cost information was
found (the early return). -/
def wcCrawlRun (w : WcWeb) (costInfo : Text → Option Text)
    (baseDomain cpt : Text) (maxPages : Nat) : Nat → WcState → WcState
  | 0, st => st
  | fuel + 1, st =>
    if !st.queue.isEmpty && st.pagesCrawled < maxPages && st.result.isNone then
      wcCrawlRun w costInfo baseDomain cpt maxPages fuel
        (wcCrawlStep w costInfo baseDomain cpt st)
    else st

/-- crawl_hospital_site of web_crawler.py: final loop state for a hospital
with the given website URL. -/
def wcCrawl (w : WcWeb) (costInfo : Text → Option Text) (website cpt : Text)
    (maxPages fuel : Nat) : WcState :=
  if website.isEmpty then ⟨[], [], 0, [], [], none⟩
  else
    let website := normalizeUrl website
    let baseDomain := (w.parseUrl website).1
    wcCrawlRun w costInfo baseDomain cpt maxPages fuel
      ⟨[website], [website], 0, [], [], none⟩

/-!
### data/cost_extractor.py: the incremental aggregation of extract_costs

The per-code entries of the results dictionary hold the price list and the
min, max and average recomputed at every insertion (lines 99 to 115, 144 to
155 and 206 to 217). The dictionary is an association list; prices are
rationals, as the parsed floats of this module may carry arbitrary decimal
tails. An update is either the initial assignment of a whole price list
from find_costs_near_cpt (guarded on a nonempty list) or the insertion of
one table price; extract_costs performs a sequence of such updates starting
from the empty dictionary.
-/

/-- Python min over a nonempty list (left fold from the head). -/
def listMin : List ℚ → ℚ
  | [] => 0
  | x :: xs => xs.foldl min x

/-- Python max over a nonempty list (left fold from the head). -/
def listMax : List ℚ → ℚ
  | [] => 0
  | x :: xs => xs.foldl max x

/-- Python sum over a list of floats. -/
def listSum (l : List ℚ) : ℚ := l.foldl (· + ·) 0

/-- One per-code entry of the results dictionary of extract_costs. -/
structure CodeEntry where
  prices : List ℚ
  min_price : ℚ
  max_price : ℚ
  avg_price : ℚ

/-- Association-list lookup, the dictionary indexing results[cpt]. -/
def lookupCE : List (Text × CodeEntry) → Text → Option CodeEntry
  | [], _ => none
  | (c, e) :: rest, code => if c = code then some e else lookupCE rest code

/-- Association-list assignment results[cpt] = entry, keeping key order. -/
def setCE : List (Text × CodeEntry) → Text → CodeEntry → List (Text × CodeEntry)
  | [], code, e => [(code, e)]
  | (c, e0) :: rest, code, e =>
    if c = code then (c, e) :: rest else (c, e0) :: setCE rest code e

/-- One update of the results dictionary as extract_costs performs it. -/
inductive CEUpdate where
  | setList (code : Text) (prices : List ℚ) : CEUpdate
  | addPrice (code : Text) (p : ℚ) : CEUpdate

/-- Apply one update: setList is the initial whole-list assignment of the
text strategy (lines 104 to 110, executed only when prices is nonempty);
addPrice is the table insertion (lines 144 to 155 and 206 to 217), which
creates a fresh singleton entry or appends and recomputes all aggregates
from the grown list. -/
def applyCE (res : List (Text × CodeEntry)) : CEUpdate → List (Text × CodeEntry)
  | .setList code prices =>
    if prices.isEmpty then res
    else setCE res code
      ⟨prices, listMin prices, listMax prices, listSum prices / prices.length⟩
  | .addPrice code p =>
    match lookupCE res code with
    | none => setCE res code ⟨[p], p, p, p⟩
    | some e =>
      let newPrices := e.prices ++ [p]
      setCE res code
        ⟨newPrices, listMin newPrices, listMax newPrices,
         listSum newPrices / newPrices.length⟩

/-- The results dictionary after a sequence of updates of extract_costs,
starting from the empty dictionary. -/
def runCE (us : List CEUpdate) : List (Text × CodeEntry) :=
  us.foldl applyCE []

/-- The consistency of one optional entry with its price list: nonempty
prices whose min, max and arithmetic mean are the stored aggregates. -/
def entryConsistent : Option CodeEntry → Prop
  | none => True
  | some e =>
    e.prices ≠ [] ∧ e.min_price = listMin e.prices ∧
    e.max_price = listMax e.prices ∧
    e.avg_price = listSum e.prices / e.prices.length

/-!
### hospital_crawler.calculate_distance and
hospital_analysis.analyze_geographic_distribution
-/

/-- calculate_distance of hospital_crawler.py lines 483 to 487: the body
returns the placeholder constant 1 for every input. -/
def calculate_distance (_lat1 _lon1 _lat2 _lon2 : ℚ) : ℚ := 1

/-- A hospital record as built by _find_nearby_hospitals; the optional
coordinates model the key-presence test of the analysis. -/
structure Hospital where
  name : Text
  address : Text
  latitude : Option ℚ
  longitude : Option ℚ
  phone : Option Text
  website : Option Text

/-- The four distance groups of analyze_geographic_distribution. -/
structure DistGroups where
  zeroToFive : List Hospital
  fiveToTen : List Hospital
  tenToTwenty : List Hospital
  twentyPlus : List Hospital

/-- Does a hospital dictionary carry both coordinate keys? -/
def hasCoords (h : Hospital) : Bool :=
  h.latitude.isSome && h.longitude.isSome

/-- One assignment step of analyze_geographic_distribution
(hospital_analysis.py lines 161 to 196, with the hospital list and the
geocoded city centre as oracle inputs): a hospital with both coordinate
keys is placed in the group of its calculate_distance value. -/
def geoAssign (cc : ℚ × ℚ) (gs : DistGroups) (h : Hospital) : DistGroups :=
  match h.latitude, h.longitude with
  | some la, some lo =>
    let d := calculate_distance cc.1 cc.2 la lo
    if d ≤ 5 then { gs with zeroToFive := gs.zeroToFive ++ [h] }
    else if d ≤ 10 then { gs with fiveToTen := gs.fiveToTen ++ [h] }
    else if d ≤ 20 then { gs with tenToTwenty := gs.tenToTwenty ++ [h] }
    else { gs with twentyPlus := gs.twentyPlus ++ [h] }
  | _, _ => gs

/-- Body of analyze_geographic_distribution once the hospital list and the
geocoded city centre are in hand. -/
def analyzeGeographicDistribution (cityCoords : Option (ℚ × ℚ))
    (hospitals : List Hospital) : Option DistGroups :=
  match cityCoords with
  | none => none
  | some cc => some (hospitals.foldl (geoAssign cc) ⟨[], [], [], []⟩)

/-!
### crawler/page_parser.py: the structured-file extractor

The pandas, json and BeautifulSoup parsers are oracles that either yield a
parsed value or fail (modelling a raised exception); the search logic over
the parsed values is embedded. Byte payloads are an opaque type parameter.
JSON values carry the textual form of their numbers, since the source only
ever formats them back into strings; the Python repr of parsed JSON is
reproduced for the substring and regex searches the source performs on it
(string escaping inside repr is not modelled beyond plain quoting, which is
exact for the ASCII data handled here).
-/

/-- Outcome of a fallible parser call: a value or a raised exception. -/
inductive POut (α : Type) where
  | ok (a : α) : POut α
  | err : POut α

/-- A parsed JSON value; numbers and the exact texts str() would print for
them. -/
inductive Json where
  | null : Json
  | bool (b : Bool) : Json
  | num (lit : Text) : Json
  | str (s : Text) : Json
  | arr (items : List Json) : Json
  | obj (fields : List (Text × Json)) : Json

mutual

/-- Python repr of a parsed JSON value (str(data) in the source). -/
def pyRepr : Json → Text
  | .null => "None".toList
  | .bool true => "True".toList
  | .bool false => "False".toList
  | .num lit => lit
  | .str s => '\'' :: s ++ ['\'']
  | .arr items => '[' :: joinT ", ".toList (pyReprList items) ++ [']']
  | .obj fields => '\x7b' :: joinT ", ".toList (pyReprFields fields) ++ ['\x7d']

/-- Reprs of the items of a list value. -/
def pyReprList : List Json → List Text
  | [] => []
  | j :: rest => pyRepr j :: pyReprList rest

/-- Reprs of the key-value pairs of a dictionary value. -/
def pyReprFields : List (Text × Json) → List Text
  | [] => []
  | (k, v) :: rest =>
    ('\'' :: k ++ ['\''] ++ ": ".toList ++ pyRepr v) :: pyReprFields rest

end

/-- Python str of a scalar JSON value: the isinstance(value, (int, float,
str)) test of the source, under which booleans count as integers. -/
def pyStrScalar : Json → Option Text
  | .num lit => some lit
  | .str s => some s
  | .bool true => some "True".toList
  | .bool false => some "False".toList
  | _ => none

/-- The price vocabulary of the structured-file searches. -/
def priceTerms : List Text :=
  ["price".toList, "cost".toList, "charge".toList, "fee".toList, "amount".toList]

/-- A found-cost dictionary of page_parser. -/
structure PInfo where
  status : Text
  cost : Text
  ptype : Text
deriving DecidableEq

/-- The f-string of the source: prefix a dollar sign unless one is present. -/
def dollarize (v : Text) : Text :=
  if startsWithT v "$".toList then v else '$' :: v

mutual

/-- _search_json_for_cpt (page_parser lines 168 to 210): on a dictionary
whose repr contains the code, return the first scalar value under a
price-named key, else the first regex price in the repr; otherwise recurse
into values and list items in order. -/
def searchJson (cpt : Text) : Json → Option PInfo
  | .obj fields =>
    let sd := lowerT (pyRepr (.obj fields))
    let hit :=
      if containsT sd cpt then
        let priceKeys := fields.filter
          (fun kv => priceTerms.any (fun t => containsT (lowerT kv.1) t))
        match firstSome (priceKeys.map (fun kv =>
            (pyStrScalar kv.2).map (fun v => ⟨"found".toList, dollarize v, "json".toList⟩))) with
        | some i => some i
        | none =>
          match searchDollar sd with
          | some m => some ⟨"found".toList, m, "json_regex".toList⟩
          | none => none
      else none
    match hit with
    | some i => some i
    | none => searchJsonFields cpt fields
  | .arr items => searchJsonList cpt items
  | _ => none

/-- Recursion of _search_json_for_cpt over list items. -/
def searchJsonList (cpt : Text) : List Json → Option PInfo
  | [] => none
  | j :: rest =>
    match searchJson cpt j with
    | some i => some i
    | none => searchJsonList cpt rest

/-- Recursion of _search_json_for_cpt over dictionary values. -/
def searchJsonFields (cpt : Text) : List (Text × Json) → Option PInfo
  | [] => none
  | (_, v) :: rest =>
    match searchJson cpt v with
    | some i => some i
    | none => searchJsonFields cpt rest

end

/-- A parsed XML document: elements with children, and text nodes. -/
inductive Xml where
  | elem (name : Text) (children : List Xml) : Xml
  | txt (t : Text) : Xml

mutual

/-- Serialization str(tag) of an XML node. -/
def xmlStr : Xml → Text
  | .elem n cs => '<' :: n ++ ['>'] ++ xmlStrList cs ++ "</".toList ++ n ++ ['>']
  | .txt t => t

/-- Serialization of a child list. -/
def xmlStrList : List Xml → Text
  | [] => []
  | x :: rest => xmlStr x ++ xmlStrList rest

end

mutual

/-- get_text of an XML node: concatenated text content. -/
def xmlText : Xml → Text
  | .elem _ cs => xmlTextList cs
  | .txt t => t

/-- get_text of a child list. -/
def xmlTextList : List Xml → Text
  | [] => []
  | x :: rest => xmlText x ++ xmlTextList rest

end

/-- Tag name of an XML node. -/
def xmlName : Xml → Text
  | .elem n _ => n
  | .txt _ => []

mutual

/-- Descendant elements of a node in document order, excluding the node
itself (find_all on a tag). -/
def xmlDescend : Xml → List Xml
  | .elem _ cs => xmlDescendList cs
  | .txt _ => []

/-- Descendant elements of a child list, in document order. -/
def xmlDescendList : List Xml → List Xml
  | [] => []
  | x :: rest =>
    (match x with
     | .elem n cs => Xml.elem n cs :: xmlDescendList cs
     | .txt _ => []) ++ xmlDescendList rest

end

/-- All elements of the document, root included (soup.find_all()). -/
def xmlAllElems (root : Xml) : List Xml :=
  match root with
  | .elem _ _ => root :: xmlDescend root
  | .txt _ => []

/-- The body of _parse_xml (lines 212 to 251) after a successful parse:
among elements whose serialization contains the code, prefer the text of a
descendant element with a price-term name, else the first regex price of
the element text. -/
def xmlSearch (cpt : Text) (root : Xml) : Option PInfo :=
  if containsT (lowerT (xmlStr root)) cpt then
    firstSome ((xmlAllElems root).map (fun tag =>
      if containsT (lowerT (xmlStr tag)) cpt then
        let priceTags := (xmlDescend tag).filter
          (fun t => priceTerms.any (fun term => containsT (lowerT (xmlName t)) term))
        match priceTags with
        | pt :: _ => some ⟨"found".toList, xmlText pt, "xml".toList⟩
        | [] =>
          match searchDollar (xmlText tag) with
          | some m => some ⟨"found".toList, m, "xml_regex".toList⟩
          | none => none
      else none))
  else none

/-- A pandas frame: column names and rows of cell texts. Missing values are
modelled as empty cells, matching the truthiness test of the source. -/
structure DataFrame where
  cols : List Text
  rows : List (List Text)

/-- Cell of a row at a column index. -/
def colCell (row : List Text) (i : Nat) : Text := row.getD i []

/-- The shared frame logic of _parse_csv and _parse_excel: for each column
whose values contain the code, take the first nonempty value of a
price-named column in the first matching row; as a fallback, scan every
row text for the dollar regex. -/
def frameSearch (df : DataFrame) (cpt : Text) (typMain typRow : Text) :
    Option PInfo :=
  let colIdx := List.range df.cols.length
  let byColumn := firstSome (colIdx.map (fun i =>
    if df.rows.any (fun r => containsT (colCell r i) cpt) then
      let matchingRows := df.rows.filter (fun r => containsT (colCell r i) cpt)
      let priceCols := colIdx.filter (fun j =>
        priceTerms.any (fun t => containsT (lowerT (df.cols.getD j [])) t))
      if !priceCols.isEmpty && !matchingRows.isEmpty then
        firstSome (priceCols.map (fun j =>
          let price := colCell (matchingRows.headD []) j
          if !price.isEmpty then some ⟨"found".toList, dollarize price, typMain⟩
          else none))
      else none
    else none))
  match byColumn with
  | some i => some i
  | none =>
    firstSome (df.rows.map (fun r =>
      let rowText := lowerT (joinT " ".toList r)
      if containsT rowText cpt then
        match searchDollar rowText with
        | some m => some ⟨"found".toList, m, typRow⟩
        | none => none
      else none))

/-- The manual line-by-line fallback of _parse_csv (lines 59 to 74). -/
def manualScan (rows : List (List Text)) (cpt : Text) : Option PInfo :=
  firstSome (rows.map (fun r =>
    let rowText := lowerT (joinT " ".toList r)
    if containsT rowText cpt then
      match searchDollar rowText with
      | some m => some ⟨"found".toList, m, "csv_manual".toList⟩
      | none => none
    else none))

/-- The external collaborators of CostInfoParser over an opaque byte type:
the HTTP fetch, pd.read_csv per encoding, the ignore-errors decode with
csv.reader, pd.read_excel, json.loads, and the XML soup. -/
structure PPOracles (β : Type) where
  fetch : Text → POut (Nat × β)
  readCsv : β → Text → POut DataFrame
  decodeIgnore : β → Text
  csvRows : Text → List (List Text)
  readExcel : β → POut DataFrame
  jsonLoads : β → POut Json
  xmlSoup : β → POut Xml

/-- The encoding cascade of _parse_csv: the first pd.read_csv attempt that
does not raise. -/
def readCsvAll {β : Type} (o : PPOracles β) (content : β) : Option DataFrame :=
  match o.readCsv content "utf-8".toList with
  | .ok df => some df
  | .err =>
    match o.readCsv content "latin-1".toList with
    | .ok df => some df
    | .err =>
      match o.readCsv content "cp1252".toList with
      | .ok df => some df
      | .err => none

/-- _parse_csv (lines 48 to 112): the pandas path on the first successful
encoding, else the manual line-by-line fallback of the for-else branch. -/
def parseCsv {β : Type} (o : PPOracles β) (content : β) (cpt : Text) :
    Option PInfo :=
  match readCsvAll o content with
  | some df => frameSearch df cpt "csv".toList "csv_row_search".toList
  | none => manualScan (o.csvRows (o.decodeIgnore content)) cpt

/-- _parse_excel (lines 114 to 153). -/
def parseExcel {β : Type} (o : PPOracles β) (content : β) (cpt : Text) :
    Option PInfo :=
  match o.readExcel content with
  | .ok df => frameSearch df cpt "excel".toList "excel_row_search".toList
  | .err => none

/-- _parse_json (lines 155 to 166). -/
def parseJson {β : Type} (o : PPOracles β) (content : β) (cpt : Text) :
    Option PInfo :=
  match o.jsonLoads content with
  | .ok j => searchJson cpt j
  | .err => none

/-- _parse_xml (lines 212 to 251); BeautifulSoup never yields None, so the
lxml retry of the source is dead code. -/
def parseXml {β : Type} (o : PPOracles β) (content : β) (cpt : Text) :
    Option PInfo :=
  match o.xmlSoup content with
  | .ok x => xmlSearch cpt x
  | .err => none

/-- parse_cost_file (lines 16 to 46): fetch, require a 200 status, and
dispatch on the lowercased declared file type; everything runs under the
try of the source, so an oracle failure yields none rather than an
exception. -/
def parseCostFile {β : Type} (o : PPOracles β) (fileUrl fileType cpt : Text) :
    Option PInfo :=
  match o.fetch fileUrl with
  | .err => none
  | .ok (status, content) =>
    if status != 200 then none
    else
      let ft := lowerT fileType
      if ft = "csv".toList then parseCsv o content cpt
      else if ft = "xlsx".toList ∨ ft = "xls".toList then parseExcel o content cpt
      else if ft = "json".toList then parseJson o content cpt
      else if ft = "xml".toList then parseXml o content cpt
      else none

/-!
### Claim-side definitions and concrete fixtures

The spec-side scoring formula and representative-price rule are stated from
the words of the specification, to be compared with the source-side
computations; the fixture pages and oracles below instantiate the
counterexamples and witnesses.
-/

/-- The scoring formula as the specification words it: 50 for the code in
anchor or path, 10 per cost keyword in the anchor, 5 per cost keyword in
the path, 15 for a PDF with a cost keyword in the anchor, 20 for a
machine-readable extension with a cost keyword in the anchor. -/
def claimScore (cpt lt ut : Text) : Nat :=
  (if containsT lt cpt || containsT ut cpt then 50 else 0)
    + 10 * costKeywords.countP (fun kw => containsT lt kw)
    + 5 * costKeywords.countP (fun kw => containsT ut kw)
    + (if endsWithT ut ".pdf".toList && costKeywords.any (fun kw => containsT lt kw)
        then 15 else 0)
    + (if mrExts.any (fun e => containsT ut e)
          && costKeywords.any (fun kw => containsT lt kw) then 20 else 0)

/-- The in-bound price matches of a context window under the bare price
pattern, as the specification defines validity (10 to 50000 dollars, in
cents). -/
def specValidMatches (w : Text) : List Nat :=
  ((findallPrices none w).filterMap parsePrice).filter
    (fun p => 10 * 100 ≤ p && p ≤ 50000 * 100)

/-- The representative-price rule as the specification words it: sort
ascending and take the median index; for one or two candidates take the
lowest. -/
def specRepresentative (ps : List Nat) : Option Nat :=
  match ps with
  | [] => none
  | _ :: _ =>
    let s := List.insertionSort (· ≤ ·) ps
    if 2 < ps.length then s.get? (ps.length / 2) else s.head?

/-- A trace has a delay between consecutive fetches when no two adjacent
events are both fetches. -/
def adjFetchFree (tr : List Event) : Prop :=
  List.Chain' (fun a b =>
    (match a with | Event.fetch _ => false | Event.sleep => true) = true ∨
    (match b with | Event.fetch _ => false | Event.sleep => true) = true) tr

instance : DecidablePred adjFetchFree := fun tr =>
  inferInstanceAs (Decidable (List.Chain' _ tr))

/-- The deduplication invariant of the crawl_hospital_website loops: the
fetched URLs followed by the queued URLs form a duplicate-free list, all of
whose members are in the visited set. -/
def CrawlInv (st : CrawlState) : Prop :=
  (st.fetched ++ st.queue.map Prod.fst).Nodup ∧
  ∀ u ∈ st.fetched ++ st.queue.map Prod.fst, u ∈ st.visited

/-- The deduplication invariant of the crawl_hospital_site loop. -/
def WcInv (st : WcState) : Prop :=
  (st.fetched ++ st.queue).Nodup ∧
  ∀ u ∈ st.fetched ++ st.queue, u ∈ st.visited

/-- The shapes of the trace segment one loop iteration appends: nothing, a
lone delay, or a delay followed by one fetch. -/
def goodTail (t : List Event) : Prop :=
  t = [] ∨ t = [Event.sleep] ∨ ∃ u, t = [Event.sleep, Event.fetch u]

/-- Fixture page on which the hospital_finder extractor emits the CPT code
itself, 99213 dollars, as the found price. -/
def pgOutOfBound : PageInfo :=
  ⟨"http://hosp.example/pricing".toList, "t".toList,
   "price 99213 costs $60,000.00 here".toList, 0⟩

/-- Fixture page for the in-bound witness of the hospital_crawler bound. -/
def pgInBound : PageInfo :=
  ⟨"http://hosp.example/pricing".toList, "t".toList,
   "price cpt 99213 cost: $125.00 today".toList, 0⟩

/-- Fixture page whose single window holds the in-bound prices 300, 50 and
100 dollars, on which the hospital_finder extractor returns 300 rather than
the median 100. -/
def pgFirstNotMedian : PageInfo :=
  ⟨"http://hosp.example/pricing".toList, "t".toList,
   "cost $300.00 price 99213 then $50.00 and $100.00".toList, 0⟩

/-- Fixture web for the budget counterexample: the seed page links to three
URLs whose fetches all return status 500. -/
def cxBudgetWeb : CrawlWeb where
  fetch := fun u =>
    if u = "https://h".toList then
      FetchOutcome.ok 200 "text/html".toList none "x".toList
        ["u1".toList, "u2".toList, "u3".toList]
    else FetchOutcome.ok 500 "text/html".toList none [] []
  resolve := fun _ href => href
  netlocOf := fun _ => "h".toList

/-- Fixture web for the delay counterexample: the seed page of
crawl_hospital_site links to two URLs whose fetches return status 404. -/
def cxDelayWeb : WcWeb where
  fetchPage := fun u =>
    if u = "https://h".toList then
      some (200, none, [⟨"u1".toList, "a".toList⟩, ⟨"u2".toList, "b".toList⟩])
    else some (404, none, [])
  resolve := fun _ href => href
  parseUrl := fun u => ("h".toList, u)

/-- Fixture oracles for the parse counterexample: every pd.read_csv
encoding attempt raises, and the manual fallback sees a row holding the
code and a dollar amount. -/
def cxParse : PPOracles Unit where
  fetch := fun _ => POut.ok (200, ())
  readCsv := fun _ _ => POut.err
  decodeIgnore := fun _ => "z".toList
  csvRows := fun _ => [["code 99213".toList, "$500.00".toList]]
  readExcel := fun _ => POut.err
  jsonLoads := fun _ => POut.err
  xmlSoup := fun _ => POut.err

/-- Fixture window text shared by the median witness candidates. -/
def wWin : Text := "w".toList

/-- Fixture candidate list for the median witness: three in-bound prices. -/
def wCands : List (Nat × Text) := [(30000, wWin), (5000, wWin), (10000, wWin)]

/-- The candidate list of the median witness, sorted ascending by price. -/
def wCandsSorted : List (Nat × Text) := [(5000, wWin), (10000, wWin), (30000, wWin)]

/-- Fixture oracles whose fetch raises, for the parse-failure witness. -/
def cxParseErr : PPOracles Unit where
  fetch := fun _ => POut.err
  readCsv := fun _ _ => POut.err
  decodeIgnore := fun _ => []
  csvRows := fun _ => []
  readExcel := fun _ => POut.err
  jsonLoads := fun _ => POut.err
  xmlSoup := fun _ => POut.err

/-!
## Theorems

Shared helper lemmas first, then one theorem per claim with its witness or
counterexample.
-/

theorem firstSome_map_eq_some {α β : Type} {l : List α} {f : α → Option β}
    {b : β} (h : firstSome (l.map f) = some b) : ∃ a ∈ l, f a = some b := by
  induction l with
  | nil => simp [firstSome] at h
  | cons x xs ih =>
    rcases hx : f x with _ | v
    · rw [List.map_cons, hx] at h
      simp only [firstSome] at h
      obtain ⟨a, ha, hf⟩ := ih h
      exact ⟨a, by simp [ha], hf⟩
    · rw [List.map_cons, hx] at h
      simp only [firstSome] at h
      exact ⟨x, by simp, by rw [hx, h]⟩

theorem validPrices_bound {w : Text} {grps : List Text} {c : Nat × Text}
    (h : c ∈ validPrices w grps) : 10 * 100 ≤ c.1 ∧ c.1 ≤ 50000 * 100 := by
  simp only [validPrices, List.mem_filterMap] at h
  obtain ⟨g, _, hg⟩ := h
  rcases hp : parsePrice g with _ | p
  · rw [hp] at hg; cases hg
  · rw [hp] at hg
    dsimp only at hg
    by_cases hb : 10 * 100 ≤ p ∧ p ≤ 50000 * 100
    · rw [if_pos hb] at hg
      cases hg
      exact hb
    · rw [if_neg hb] at hg; cases hg

theorem choosePrice_mem {l : List (Nat × Text)} {c : Nat × Text}
    (h : choosePrice l = some c) : c ∈ l := by
  cases l with
  | nil => simp [choosePrice] at h
  | cons x xs =>
    simp only [choosePrice] at h
    have hperm : List.Perm (List.insertionSort priceLE (x :: xs)) (x :: xs) :=
      List.perm_insertionSort priceLE (x :: xs)
    by_cases hl : (x :: xs).length > 2
    · rw [if_pos hl] at h
      exact hperm.mem_iff.mp (List.get?_mem h)
    · rw [if_neg hl] at h
      exact hperm.mem_iff.mp (List.mem_of_mem_head? (Option.mem_def.mpr h))

theorem hcExtractWindow_bound {w : Text} {c : Nat × Text}
    (h : hcExtractWindow w = some c) : 10 * 100 ≤ c.1 ∧ c.1 ≤ 50000 * 100 := by
  obtain ⟨kw, _, hkw⟩ := firstSome_map_eq_some h
  rcases hg : findallPrices kw w with _ | ⟨g, gs⟩
  · rw [hg] at hkw; cases hkw
  · rw [hg] at hkw
    exact validPrices_bound (choosePrice_mem hkw)

theorem hcExtract_bound {pg : PageInfo} {cpt : Text} {proc : Option Text}
    {p : Nat} (h : (hcExtract pg cpt proc).price = some p) :
    10 * 100 ≤ p ∧ p ≤ 50000 * 100 := by
  simp only [hcExtract] at h
  split at h
  · split at h
    · next pw heq =>
      simp only [baseResult] at h
      cases h
      exact hcExtractWindow_bound (firstSome_map_eq_some heq).choose_spec.2
    · simp [baseResult] at h
  · simp [baseResult] at h

/-- C1 (amended): every price emitted as a found result by the
_extract_price_from_page of hospital_crawler.py satisfies the sanity bound
10 to 50000 dollars; the hospital_finder variant and the candidate lists of
cost_extractor carry no such bound (see the counterexample). -/
theorem C1_hc_price_bound (pg : PageInfo) (cpt : Text) (proc : Option Text)
    (p : Nat) (h : (hcExtract pg cpt proc).price = some p) :
    10 ≤ asDollars p ∧ asDollars p ≤ 50000 := by
  obtain ⟨h1, h2⟩ := hcExtract_bound h
  unfold asDollars
  constructor
  · rw [le_div_iff₀ (by norm_num : (0:ℚ) < 100)]
    exact_mod_cast h1
  · rw [div_le_iff₀ (by norm_num : (0:ℚ) < 100)]
    exact_mod_cast h2

/-- C1 witness: on a page holding the code and a 125 dollar price, the
hospital_crawler extractor emits 125 dollars, inside the bound. -/
theorem C1_hc_price_bound_witness :
    (hcExtract pgInBound "99213".toList none).price = some 12500 ∧
    (10 ≤ asDollars 12500 ∧ asDollars 12500 ≤ 50000) :=
  ⟨by decide, C1_hc_price_bound pgInBound "99213".toList none 12500 (by decide)⟩

/-- C1 counterexample: the hospital_finder _extract_price_from_page has no
sanity bound and returns the first numeric match of the window, here the
CPT code itself as a 99213 dollar price, outside the claimed bound. -/
theorem C1_counterexample :
    (hfExtract pgOutOfBound "99213".toList none).found = true ∧
    (hfExtract pgOutOfBound "99213".toList none).price = some 9921300 ∧
    ¬ (10 ≤ asDollars 9921300 ∧ asDollars 9921300 ≤ 50000) :=
  ⟨by decide, by decide, by norm_num [asDollars]⟩

/-- C4 (amended): the selection step of hospital_crawler
_extract_price_from_page picks, from the valid prices of a window, the
price at the median index of any ascending sorting when more than two are
present, and the lowest otherwise; the hospital_finder variant instead
returns the first regex match of the window (see the counterexample). -/
theorem C4_choosePrice_median (l : List (Nat × Text)) (hne : l ≠ [])
    (s : List (Nat × Text)) (hp : List.Perm l s) (hs : List.Sorted priceLE s) :
    (2 < l.length →
      (choosePrice l).map Prod.fst = (s.get? (l.length / 2)).map Prod.fst) ∧
    (l.length ≤ 2 →
      ∃ c, choosePrice l = some c ∧ c ∈ l ∧ ∀ x ∈ l, c.1 ≤ x.1) := by
  obtain ⟨x, xs, rfl⟩ := List.exists_cons_of_ne_nil hne
  have hperm : List.Perm (List.insertionSort priceLE (x :: xs)) (x :: xs) :=
    List.perm_insertionSort priceLE (x :: xs)
  have hsortT : List.Sorted priceLE (List.insertionSort priceLE (x :: xs)) :=
    List.sorted_insertionSort priceLE (x :: xs)
  have h1 : List.Sorted (fun a b : Nat => a ≤ b)
      ((List.insertionSort priceLE (x :: xs)).map Prod.fst) :=
    List.pairwise_map.mpr (by exact hsortT)
  have h2 : List.Sorted (fun a b : Nat => a ≤ b) (s.map Prod.fst) :=
    List.pairwise_map.mpr (by exact hs)
  have hmap : (List.insertionSort priceLE (x :: xs)).map Prod.fst = s.map Prod.fst :=
    List.eq_of_perm_of_sorted ((hperm.trans hp).map Prod.fst) h1 h2
  constructor
  · intro hlen
    simp only [choosePrice, if_pos hlen]
    rw [← List.get?_map, ← List.get?_map, hmap]
  · intro hlen
    rcases ht : List.insertionSort priceLE (x :: xs) with _ | ⟨c, rest⟩
    · have hl := hperm.length_eq
      rw [ht] at hl
      simp at hl
    · refine ⟨c, ?_, ?_, ?_⟩
      · simp only [choosePrice, if_neg (by omega : ¬ (x :: xs).length > 2), ht]
        rfl
      · refine hperm.mem_iff.mp ?_
        rw [ht]
        exact List.mem_cons_self c rest
      · intro y hy
        have hy2 : y ∈ c :: rest := by
          rw [← ht]
          exact hperm.mem_iff.mpr hy
        rcases List.mem_cons.mp hy2 with rfl | hy3
        · exact le_refl _
        · have hsc := hsortT
          rw [ht] at hsc
          exact List.rel_of_sorted_cons hsc y hy3

/-- C4 witness: the theorem applied to three concrete in-bound candidates
and their ascending sorting; the selected price is the median 100 dollars. -/
theorem C4_choosePrice_median_witness :
    (2 < wCands.length →
      (choosePrice wCands).map Prod.fst =
        (wCandsSorted.get? (wCands.length / 2)).map Prod.fst) ∧
    (wCands.length ≤ 2 →
      ∃ c, choosePrice wCands = some c ∧ c ∈ wCands ∧ ∀ x ∈ wCands, c.1 ≤ x.1) :=
  C4_choosePrice_median wCands (by decide) wCandsSorted (by decide) (by decide)

/-- C4 counterexample: on a window whose valid in-bound matches are 300, 50
and 100 dollars, the hospital_finder extractor selects 300 (the first
match), not the 100 the median rule of the claim selects. -/
theorem C4_counterexample :
    (hfExtract pgFirstNotMedian "99213".toList none).price = some 30000 ∧
    specValidMatches pgFirstNotMedian.text = [30000, 5000, 10000] ∧
    specRepresentative (specValidMatches pgFirstNotMedian.text) = some 10000 ∧
    (30000 : Nat) ≠ 10000 :=
  ⟨by decide, by decide, by decide, by decide⟩

theorem enqueueOne_spec (w : CrawlWeb) (dom cur : Text) (dep : Nat)
    (st : CrawlState) (href : Text) :
    (enqueueOne w dom cur dep st href).fetched = st.fetched ∧
    (enqueueOne w dom cur dep st href).results = st.results ∧
    (enqueueOne w dom cur dep st href).pageCount = st.pageCount ∧
    (enqueueOne w dom cur dep st href).trace = st.trace ∧
    (∀ v ∈ st.visited, v ∈ (enqueueOne w dom cur dep st href).visited) ∧
    (CrawlInv st → CrawlInv (enqueueOne w dom cur dep st href)) := by
  unfold enqueueOne
  split
  · exact ⟨rfl, rfl, rfl, rfl, fun v hv => hv, fun h => h⟩
  · dsimp only
    split
    · exact ⟨rfl, rfl, rfl, rfl, fun v hv => hv, fun h => h⟩
    · split
      · exact ⟨rfl, rfl, rfl, rfl, fun v hv => hv, fun h => h⟩
      · next hcont =>
        refine ⟨rfl, rfl, rfl, rfl, fun v hv => List.mem_cons_of_mem _ hv, ?_⟩
        rintro ⟨hnd, hmem⟩
        set full := w.resolve cur href with hfull
        have hnotvis : full ∉ st.visited := by
          intro hin
          exact hcont (by simpa using hin)
        have hnotin : full ∉ st.fetched ++ st.queue.map Prod.fst :=
          fun hin => hnotvis (hmem full hin)
        constructor
        · simp only [CrawlState.fetched, CrawlState.queue, List.map_append,
            List.map_cons, List.map_nil]
          rw [← List.append_assoc]
          refine hnd.append (List.nodup_singleton _) ?_
          intro a ha hb
          simp only [List.mem_singleton] at hb
          subst hb
          exact hnotin ha
        · intro u hu
          simp only [CrawlState.fetched, CrawlState.queue, List.map_append,
            List.map_cons, List.map_nil, List.mem_append, List.mem_singleton] at hu
          rcases hu with hu | hu | hu
          · exact List.mem_cons_of_mem _ (hmem u (List.mem_append.mpr (Or.inl hu)))
          · exact List.mem_cons_of_mem _ (hmem u (List.mem_append.mpr (Or.inr hu)))
          · subst hu
            exact List.mem_cons_self _ _

theorem enqueueLinks_spec (w : CrawlWeb) (dom cur : Text) (dep : Nat)
    (links : List Text) (st : CrawlState) :
    (enqueueLinks w dom cur dep links st).fetched = st.fetched ∧
    (enqueueLinks w dom cur dep links st).results = st.results ∧
    (enqueueLinks w dom cur dep links st).pageCount = st.pageCount ∧
    (enqueueLinks w dom cur dep links st).trace = st.trace ∧
    (∀ v ∈ st.visited, v ∈ (enqueueLinks w dom cur dep links st).visited) ∧
    (CrawlInv st → CrawlInv (enqueueLinks w dom cur dep links st)) := by
  induction links generalizing st with
  | nil => exact ⟨rfl, rfl, rfl, rfl, fun v hv => hv, fun h => h⟩
  | cons href rest ih =>
    have h1 := enqueueOne_spec w dom cur dep st href
    have h2 := ih (enqueueOne w dom cur dep st href)
    have hfold : enqueueLinks w dom cur dep (href :: rest) st =
        enqueueLinks w dom cur dep rest (enqueueOne w dom cur dep st href) := rfl
    rw [hfold]
    exact ⟨h2.1.trans h1.1, h2.2.1.trans h1.2.1, h2.2.2.1.trans h1.2.2.1,
      h2.2.2.2.1.trans h1.2.2.2.1,
      fun v hv => h2.2.2.2.2.1 v (h1.2.2.2.2.1 v hv),
      fun h => h2.2.2.2.2.2 (h1.2.2.2.2.2 h)⟩

theorem crawlInv_drop {st : CrawlState} {u : Text} {d : Nat}
    {rest : List (Text × Nat)} {tr : List Event} (hq : st.queue = (u, d) :: rest)
    (h : CrawlInv st) : CrawlInv { st with queue := rest, trace := tr } := by
  obtain ⟨hnd, hmem⟩ := h
  rw [hq] at hnd hmem
  simp only [List.map_cons] at hnd hmem
  constructor
  · exact List.Nodup.sublist ((List.sublist_cons_self u (rest.map Prod.fst)).append_left _) hnd
  · intro x hx
    apply hmem
    simp only [List.mem_append] at hx ⊢
    rcases hx with hx | hx
    · exact Or.inl hx
    · exact Or.inr (List.mem_cons_of_mem _ hx)

theorem crawlInv_fetch {st : CrawlState} {u : Text} {d : Nat}
    {rest : List (Text × Nat)} {tr : List Event} {rs : List PageInfo} {pc : Nat}
    (hq : st.queue = (u, d) :: rest) (h : CrawlInv st) :
    CrawlInv { st with queue := rest, trace := tr, fetched := st.fetched ++ [u],
                       results := rs, pageCount := pc } := by
  obtain ⟨hnd, hmem⟩ := h
  rw [hq] at hnd hmem
  simp only [List.map_cons] at hnd hmem
  constructor
  · simpa [List.append_assoc] using hnd
  · intro x hx
    apply hmem
    simpa [List.append_assoc] using hx

theorem hfCrawlStep_spec (w : CrawlWeb) (dom : Text) (maxD : Nat)
    (st : CrawlState) :
    (CrawlInv st → CrawlInv (hfCrawlStep w dom maxD st)) ∧
    (∀ v ∈ st.visited, v ∈ (hfCrawlStep w dom maxD st).visited) ∧
    (hfCrawlStep w dom maxD st).pageCount ≤ st.pageCount + 1 ∧
    (st.results.length = st.pageCount →
      (hfCrawlStep w dom maxD st).results.length =
        (hfCrawlStep w dom maxD st).pageCount) ∧
    (∃ tail, (hfCrawlStep w dom maxD st).trace = st.trace ++ tail ∧ goodTail tail) := by
  rcases hq : st.queue with _ | ⟨⟨u, d⟩, rest⟩
  · have hstep : hfCrawlStep w dom maxD st = st := by
      unfold hfCrawlStep; rw [hq]
    rw [hstep]
    exact ⟨fun h => h, fun v hv => hv, Nat.le_succ _, fun h => h,
      ⟨[], by simp, Or.inl rfl⟩⟩
  · unfold hfCrawlStep
    rw [hq]
    dsimp only
    by_cases hd : maxD < d
    · rw [if_pos hd]
      exact ⟨crawlInv_drop hq, fun v hv => hv, Nat.le_succ _, fun h => h,
        ⟨[], by simp, Or.inl rfl⟩⟩
    · rw [if_neg hd]
      rcases hf : w.fetch u with _ | ⟨status, ct, title, text, links⟩
      · dsimp only
        exact ⟨crawlInv_fetch hq, fun v hv => hv, Nat.le_succ _, fun h => h,
          ⟨[Event.sleep, Event.fetch u], by simp, Or.inr (Or.inr ⟨u, rfl⟩)⟩⟩
      · dsimp only
        by_cases hs : 400 ≤ status
        · rw [if_pos hs]
          exact ⟨crawlInv_fetch hq, fun v hv => hv, Nat.le_succ _, fun h => h,
            ⟨[Event.sleep, Event.fetch u], by simp, Or.inr (Or.inr ⟨u, rfl⟩)⟩⟩
        · rw [if_neg hs]
          by_cases hdep : d < maxD
          · rw [if_pos hdep]
            have hsp := enqueueLinks_spec w dom u d links { st with queue := rest, trace := st.trace ++ [Event.sleep] ++ [Event.fetch u], fetched := st.fetched ++ [u], results := st.results ++ [⟨u, title.getD "No title".toList, text, d⟩], pageCount := st.pageCount + 1 }
            refine ⟨?_, ?_, ?_, ?_, ?_⟩
            · intro h
              refine hsp.2.2.2.2.2 ?_
              exact crawlInv_fetch hq h
            · intro v hv
              exact hsp.2.2.2.2.1 v hv
            · rw [hsp.2.2.1]
            · intro h
              rw [hsp.2.1, hsp.2.2.1]
              simp [h]
            · exact ⟨[Event.sleep, Event.fetch u], by rw [hsp.2.2.2.1]; simp,
                Or.inr (Or.inr ⟨u, rfl⟩)⟩
          · rw [if_neg hdep]
            refine ⟨fun h => crawlInv_fetch hq h, fun v hv => hv, le_rfl, ?_,
              ⟨[Event.sleep, Event.fetch u], by simp, Or.inr (Or.inr ⟨u, rfl⟩)⟩⟩
            intro h
            simp [h]

theorem hcCrawlStep_spec (w : CrawlWeb) (dom : Text) (maxD : Nat)
    (st : CrawlState) :
    (CrawlInv st → CrawlInv (hcCrawlStep w dom maxD st)) ∧
    (∀ v ∈ st.visited, v ∈ (hcCrawlStep w dom maxD st).visited) ∧
    (hcCrawlStep w dom maxD st).pageCount ≤ st.pageCount + 1 ∧
    (st.results.length = st.pageCount →
      (hcCrawlStep w dom maxD st).results.length =
        (hcCrawlStep w dom maxD st).pageCount) ∧
    (∃ tail, (hcCrawlStep w dom maxD st).trace = st.trace ++ tail ∧ goodTail tail) := by
  rcases hq : st.queue with _ | ⟨⟨u, d⟩, rest⟩
  · have hstep : hcCrawlStep w dom maxD st = st := by
      unfold hcCrawlStep; rw [hq]
    rw [hstep]
    exact ⟨fun h => h, fun v hv => hv, Nat.le_succ _, fun h => h,
      ⟨[], by simp, Or.inl rfl⟩⟩
  · unfold hcCrawlStep
    rw [hq]
    dsimp only
    by_cases hd : maxD < d
    · rw [if_pos hd]
      exact ⟨crawlInv_drop hq, fun v hv => hv, Nat.le_succ _, fun h => h,
        ⟨[], by simp, Or.inl rfl⟩⟩
    · rw [if_neg hd]
      by_cases hext : binExtsHC.any (fun e => endsWithT (lowerT u) e) = true
      · rw [if_pos hext]
        exact ⟨crawlInv_drop hq, fun v hv => hv, Nat.le_succ _, fun h => h,
          ⟨[Event.sleep], by simp, Or.inr (Or.inl rfl)⟩⟩
      · rw [if_neg hext]
        by_cases hpat : exclPats.any (fun p => containsT (lowerT u) p) = true
        · rw [if_pos hpat]
          exact ⟨crawlInv_drop hq, fun v hv => hv, Nat.le_succ _, fun h => h,
            ⟨[Event.sleep], by simp, Or.inr (Or.inl rfl)⟩⟩
        · rw [if_neg hpat]
          rcases hfet : w.fetch u with _ | ⟨status, ct, title, text, links⟩
          · dsimp only
            exact ⟨crawlInv_fetch hq, fun v hv => hv, Nat.le_succ _, fun h => h,
              ⟨[Event.sleep, Event.fetch u], by simp, Or.inr (Or.inr ⟨u, rfl⟩)⟩⟩
          · dsimp only
            by_cases hs : 400 ≤ status
            · rw [if_pos hs]
              exact ⟨crawlInv_fetch hq, fun v hv => hv, Nat.le_succ _, fun h => h,
                ⟨[Event.sleep, Event.fetch u], by simp, Or.inr (Or.inr ⟨u, rfl⟩)⟩⟩
            · rw [if_neg hs]
              by_cases hct : (!containsT (lowerT ct) "text/html".toList) = true
              · rw [if_pos hct]
                exact ⟨crawlInv_fetch hq, fun v hv => hv, Nat.le_succ _, fun h => h,
                  ⟨[Event.sleep, Event.fetch u], by simp, Or.inr (Or.inr ⟨u, rfl⟩)⟩⟩
              · rw [if_neg hct]
                by_cases hdep : d < maxD
                · rw [if_pos hdep]
                  have hsp := enqueueLinks_spec w dom u d links { st with queue := rest, trace := st.trace ++ [Event.sleep] ++ [Event.fetch u], fetched := st.fetched ++ [u], results := st.results ++ [⟨u, title.getD "No title".toList, text, d⟩], pageCount := st.pageCount + 1 }
                  refine ⟨?_, ?_, ?_, ?_, ?_⟩
                  · intro h
                    refine hsp.2.2.2.2.2 ?_
                    exact crawlInv_fetch hq h
                  · intro v hv
                    exact hsp.2.2.2.2.1 v hv
                  · rw [hsp.2.2.1]
                  · intro h
                    rw [hsp.2.1, hsp.2.2.1]
                    simp [h]
                  · exact ⟨[Event.sleep, Event.fetch u], by rw [hsp.2.2.2.1]; simp,
                      Or.inr (Or.inr ⟨u, rfl⟩)⟩
                · rw [if_neg hdep]
                  refine ⟨fun h => crawlInv_fetch hq h, fun v hv => hv, le_rfl, ?_,
                    ⟨[Event.sleep, Event.fetch u], by simp, Or.inr (Or.inr ⟨u, rfl⟩)⟩⟩
                  intro h
                  simp [h]

theorem wcEnqueueOne_spec (w : WcWeb) (dom : Text) (st : WcState)
    (lp : Text × Nat) :
    (wcEnqueueOne w dom st lp).fetched = st.fetched ∧
    (wcEnqueueOne w dom st lp).pagesCrawled = st.pagesCrawled ∧
    (wcEnqueueOne w dom st lp).trace = st.trace ∧
    (wcEnqueueOne w dom st lp).result = st.result ∧
    (∀ v ∈ st.visited, v ∈ (wcEnqueueOne w dom st lp).visited) ∧
    (WcInv st → WcInv (wcEnqueueOne w dom st lp)) := by
  unfold wcEnqueueOne
  split
  · next hcond =>
    refine ⟨rfl, rfl, rfl, rfl, fun v hv => List.mem_cons_of_mem _ hv, ?_⟩
    rintro ⟨hnd, hmem⟩
    have hcont : st.visited.contains lp.1 = false := by
      rcases Bool.and_eq_true .. |>.mp hcond with ⟨h1, _⟩
      simpa using h1
    have hnotvis : lp.1 ∉ st.visited := by
      intro hin
      rw [(by simpa using hin : st.visited.contains lp.1 = true)] at hcont
      cases hcont
    have hnotin : lp.1 ∉ st.fetched ++ st.queue :=
      fun hin => hnotvis (hmem lp.1 hin)
    constructor
    · simp only [WcState.fetched, WcState.queue]
      rw [← List.append_assoc]
      refine hnd.append (List.nodup_singleton _) ?_
      intro a ha hb
      simp only [List.mem_singleton] at hb
      subst hb
      exact hnotin ha
    · intro x hx
      simp only [WcState.fetched, WcState.queue, List.mem_append,
        List.mem_singleton] at hx
      rcases hx with hx | hx | hx
      · exact List.mem_cons_of_mem _ (hmem x (List.mem_append.mpr (Or.inl hx)))
      · exact List.mem_cons_of_mem _ (hmem x (List.mem_append.mpr (Or.inr hx)))
      · subst hx
        exact List.mem_cons_self _ _
  · exact ⟨rfl, rfl, rfl, rfl, fun v hv => hv, fun h => h⟩

theorem wcEnqueueAll_spec (w : WcWeb) (dom : Text) (links : List (Text × Nat))
    (st : WcState) :
    (links.foldl (wcEnqueueOne w dom) st).fetched = st.fetched ∧
    (links.foldl (wcEnqueueOne w dom) st).pagesCrawled = st.pagesCrawled ∧
    (links.foldl (wcEnqueueOne w dom) st).trace = st.trace ∧
    (links.foldl (wcEnqueueOne w dom) st).result = st.result ∧
    (∀ v ∈ st.visited, v ∈ (links.foldl (wcEnqueueOne w dom) st).visited) ∧
    (WcInv st → WcInv (links.foldl (wcEnqueueOne w dom) st)) := by
  induction links generalizing st with
  | nil => exact ⟨rfl, rfl, rfl, rfl, fun v hv => hv, fun h => h⟩
  | cons lp rest ih =>
    have h1 := wcEnqueueOne_spec w dom st lp
    have h2 := ih (wcEnqueueOne w dom st lp)
    exact ⟨h2.1.trans h1.1, h2.2.1.trans h1.2.1, h2.2.2.1.trans h1.2.2.1,
      h2.2.2.2.1.trans h1.2.2.2.1,
      fun v hv => h2.2.2.2.2.1 v (h1.2.2.2.2.1 v hv),
      fun h => h2.2.2.2.2.2 (h1.2.2.2.2.2 h)⟩

theorem wcInv_fetch {st : WcState} {u : Text} {rest : List Text}
    {tr : List Event} {pc : Nat} {res : Option Text} (hq : st.queue = u :: rest)
    (h : WcInv st) :
    WcInv { st with queue := rest, pagesCrawled := pc,
                    fetched := st.fetched ++ [u], trace := tr,
                    result := res } := by
  obtain ⟨hnd, hmem⟩ := h
  rw [hq] at hnd hmem
  constructor
  · simpa [List.append_assoc] using hnd
  · intro x hx
    apply hmem
    simpa [List.append_assoc] using hx

theorem wcCrawlStep_spec (w : WcWeb) (ci : Text → Option Text)
    (dom cpt : Text) (st : WcState) :
    (WcInv st → WcInv (wcCrawlStep w ci dom cpt st)) ∧
    (∀ v ∈ st.visited, v ∈ (wcCrawlStep w ci dom cpt st).visited) ∧
    (wcCrawlStep w ci dom cpt st).pagesCrawled ≤ st.pagesCrawled + 1 ∧
    (st.fetched.length = st.pagesCrawled →
      (wcCrawlStep w ci dom cpt st).fetched.length =
        (wcCrawlStep w ci dom cpt st).pagesCrawled) := by
  rcases hq : st.queue with _ | ⟨u, rest⟩
  · have hstep : wcCrawlStep w ci dom cpt st = st := by
      unfold wcCrawlStep; rw [hq]
    rw [hstep]
    exact ⟨fun h => h, fun v hv => hv, Nat.le_succ _, fun h => h⟩
  · unfold wcCrawlStep
    rw [hq]
    dsimp only
    rcases hf : w.fetchPage u with _ | ⟨status, ti, raws⟩
    · dsimp only
      refine ⟨wcInv_fetch hq, fun v hv => hv, le_rfl, ?_⟩
      intro h
      simp [h]
    · dsimp only
      by_cases hs : (status != 200) = true
      · rw [if_pos hs]
        refine ⟨wcInv_fetch hq, fun v hv => hv, le_rfl, ?_⟩
        intro h
        simp [h]
      · rw [if_neg hs]
        rcases hci : ci u with _ | info
        · dsimp only
          have hsp := wcEnqueueAll_spec w dom (wcPrioritize w u dom cpt raws) { st with queue := rest, pagesCrawled := st.pagesCrawled + 1, fetched := st.fetched ++ [u], trace := st.trace ++ [Event.fetch u] }
          refine ⟨?_, ?_, ?_, ?_⟩
          · intro h
            exact hsp.2.2.2.2.2 (wcInv_fetch hq h)
          · intro v hv
            exact hsp.2.2.2.2.1 v hv
          · rw [hsp.2.1]
          · intro h
            rw [hsp.1, hsp.2.1]
            simp [h]
        · dsimp only
          refine ⟨?_, fun v hv => hv, le_rfl, ?_⟩
          · intro h
            exact wcInv_fetch hq h
          · intro h
            simp [h]

theorem crawlRun_pres {P : CrawlState → Prop} (step : CrawlState → CrawlState)
    (n : Nat) (hstep : ∀ st, P st → P (step st)) :
    ∀ fuel st, P st → P (crawlRun step n fuel st) := by
  intro fuel
  induction fuel with
  | zero => exact fun st h => h
  | succ f ih =>
    intro st h
    unfold crawlRun
    split
    · exact ih _ (hstep st h)
    · exact h

theorem crawlRun_count (step : CrawlState → CrawlState) (n : Nat)
    (hstep : ∀ st, (step st).pageCount ≤ st.pageCount + 1) :
    ∀ fuel st, st.pageCount ≤ n → (crawlRun step n fuel st).pageCount ≤ n := by
  intro fuel
  induction fuel with
  | zero => exact fun st h => h
  | succ f ih =>
    intro st h
    unfold crawlRun
    split
    · next hcond =>
      refine ih _ ?_
      have hlt : st.pageCount < n := by
        rcases (Bool.and_eq_true ..).mp hcond with ⟨_, h2⟩
        simpa using h2
      have := hstep st
      omega
    · exact h

theorem wcCrawlRun_pres {P : WcState → Prop} (w : WcWeb)
    (ci : Text → Option Text) (dom cpt : Text) (n : Nat)
    (hstep : ∀ st, P st → P (wcCrawlStep w ci dom cpt st)) :
    ∀ fuel st, P st → P (wcCrawlRun w ci dom cpt n fuel st) := by
  intro fuel
  induction fuel with
  | zero => exact fun st h => h
  | succ f ih =>
    intro st h
    unfold wcCrawlRun
    split
    · exact ih _ (hstep st h)
    · exact h

theorem wcCrawlRun_count (w : WcWeb) (ci : Text → Option Text)
    (dom cpt : Text) (n : Nat) :
    ∀ fuel st, st.pagesCrawled ≤ n →
      (wcCrawlRun w ci dom cpt n fuel st).pagesCrawled ≤ n := by
  intro fuel
  induction fuel with
  | zero => exact fun st h => h
  | succ f ih =>
    intro st h
    unfold wcCrawlRun
    split
    · next hcond =>
      refine ih _ ?_
      have hlt : st.pagesCrawled < n := by
        rcases (Bool.and_eq_true ..).mp hcond with ⟨h1, _⟩
        rcases (Bool.and_eq_true ..).mp h1 with ⟨_, h2⟩
        simpa using h2
      have := (wcCrawlStep_spec w ci dom cpt st).2.2.1
      omega
    · exact h

/-- C2: per crawl session each URL is fetched at most once. The fetched
lists of the final states of all three crawl loops are duplicate-free for
every web oracle, every seed and every fuel, and one loop step only ever
grows the visited set. -/
theorem C2_visited_once (w : CrawlWeb) (ww : WcWeb) (ci : Text → Option Text)
    (url website cpt dom : Text) (maxDepth maxPages fuel : Nat)
    (st : CrawlState) (wst : WcState) :
    (hfCrawl w url maxDepth maxPages fuel).fetched.Nodup ∧
    (hcCrawl w url maxDepth maxPages fuel).fetched.Nodup ∧
    (wcCrawl ww ci website cpt maxPages fuel).fetched.Nodup ∧
    (∀ v ∈ st.visited, v ∈ (hfCrawlStep w dom maxDepth st).visited) ∧
    (∀ v ∈ st.visited, v ∈ (hcCrawlStep w dom maxDepth st).visited) ∧
    (∀ v ∈ wst.visited, v ∈ (wcCrawlStep ww ci dom cpt wst).visited) := by
  have hnodup : ∀ s : CrawlState, CrawlInv s → s.fetched.Nodup := by
    rintro s ⟨hnd, _⟩
    exact List.Nodup.sublist (List.sublist_append_left _ _) hnd
  have hwnodup : ∀ s : WcState, WcInv s → s.fetched.Nodup := by
    rintro s ⟨hnd, _⟩
    exact List.Nodup.sublist (List.sublist_append_left _ _) hnd
  refine ⟨?_, ?_, ?_, (hfCrawlStep_spec w dom maxDepth st).2.1,
    (hcCrawlStep_spec w dom maxDepth st).2.1,
    (wcCrawlStep_spec ww ci dom cpt wst).2.1⟩
  · apply hnodup
    unfold hfCrawl
    split
    · exact ⟨by simp, by simp⟩
    · exact crawlRun_pres _ _
        (fun s h => (hfCrawlStep_spec w _ maxDepth s).1 h) fuel _
        ⟨by simp [initCrawl], by simp [initCrawl]⟩
  · apply hnodup
    unfold hcCrawl
    split
    · exact ⟨by simp, by simp⟩
    · exact crawlRun_pres _ _
        (fun s h => (hcCrawlStep_spec w _ maxDepth s).1 h) fuel _
        ⟨by simp [initCrawl], by simp [initCrawl]⟩
  · apply hwnodup
    unfold wcCrawl
    split
    · exact ⟨by simp, by simp⟩
    · exact wcCrawlRun_pres ww ci _ cpt maxPages
        (fun s h => (wcCrawlStep_spec ww ci _ cpt s).1 h) fuel _
        ⟨by simp, by simp⟩

/-- C2 witness: the theorem applied to a concrete crawl and a concrete
state whose visited set holds the seed URL. -/
theorem C2_visited_once_witness :
    (hfCrawl cxBudgetWeb "https://h".toList 3 2 10).fetched.Nodup ∧
    "https://h".toList ∈
      (hfCrawlStep cxBudgetWeb "h".toList 3 (initCrawl "https://h".toList)).visited :=
  ⟨(C2_visited_once cxBudgetWeb cxDelayWeb (fun _ => none) "https://h".toList
      "https://h".toList "99213".toList "h".toList 3 2 10
      (initCrawl "https://h".toList) ⟨["https://h".toList], ["https://h".toList], 0, [], [], none⟩).1,
   (C2_visited_once cxBudgetWeb cxDelayWeb (fun _ => none) "https://h".toList
      "https://h".toList "99213".toList "h".toList 3 2 10
      (initCrawl "https://h".toList) ⟨["https://h".toList], ["https://h".toList], 0, [], [], none⟩).2.2.2.1
      "https://h".toList (by decide)⟩

/-- C3 (amended): a crawl with max_pages N extracts content from at most N
pages: the results list and page counter of both crawl_hospital_website
variants stay bounded by N, and crawl_hospital_site dequeues (hence
fetches) at most N URLs. Fetch attempts of the two crawl_hospital_website
variants are not individually counted and can exceed N (see the
counterexample). -/
theorem C3_page_budget (w : CrawlWeb) (ww : WcWeb) (ci : Text → Option Text)
    (url website cpt : Text) (maxDepth maxPages fuel : Nat) :
    (hfCrawl w url maxDepth maxPages fuel).results.length ≤ maxPages ∧
    (hcCrawl w url maxDepth maxPages fuel).results.length ≤ maxPages ∧
    (wcCrawl ww ci website cpt maxPages fuel).fetched.length ≤ maxPages := by
  refine ⟨?_, ?_, ?_⟩
  · unfold hfCrawl
    split
    · simp
    · dsimp only
      have h1 := @crawlRun_pres (fun s => s.results.length = s.pageCount)
        (hfCrawlStep w (w.netlocOf (normalizeUrl url)) maxDepth) maxPages
        (fun s h => (hfCrawlStep_spec w _ maxDepth s).2.2.2.1 h) fuel
        (initCrawl (normalizeUrl url)) (by simp [initCrawl])
      have h2 := crawlRun_count (hfCrawlStep w (w.netlocOf (normalizeUrl url)) maxDepth)
        maxPages (fun s => (hfCrawlStep_spec w _ maxDepth s).2.2.1) fuel
        (initCrawl (normalizeUrl url)) (by simp [initCrawl])
      omega
  · unfold hcCrawl
    split
    · simp
    · dsimp only
      have h1 := @crawlRun_pres (fun s => s.results.length = s.pageCount)
        (hcCrawlStep w (w.netlocOf (normalizeUrl url)) maxDepth) maxPages
        (fun s h => (hcCrawlStep_spec w _ maxDepth s).2.2.2.1 h) fuel
        (initCrawl (normalizeUrl url)) (by simp [initCrawl])
      have h2 := crawlRun_count (hcCrawlStep w (w.netlocOf (normalizeUrl url)) maxDepth)
        maxPages (fun s => (hcCrawlStep_spec w _ maxDepth s).2.2.1) fuel
        (initCrawl (normalizeUrl url)) (by simp [initCrawl])
      omega
  · unfold wcCrawl
    split
    · simp
    · dsimp only
      have h1 := @wcCrawlRun_pres (fun s => s.fetched.length = s.pagesCrawled)
        ww ci ((ww.parseUrl (normalizeUrl website)).1) cpt maxPages
        (fun s h => (wcCrawlStep_spec ww ci _ cpt s).2.2.2 h) fuel
        ⟨[normalizeUrl website], [normalizeUrl website], 0, [], [], none⟩ (by simp)
      have h2 := wcCrawlRun_count ww ci ((ww.parseUrl (normalizeUrl website)).1) cpt
        maxPages fuel
        ⟨[normalizeUrl website], [normalizeUrl website], 0, [], [], none⟩ (by simp)
      omega

/-- C3 counterexample: with max_pages 2, the hospital_finder crawl of a
seed whose three links all fail with status 500 performs four fetches; the
run ends with an empty queue, so larger fuels give the same final state. -/
theorem C3_counterexample :
    (hfCrawl cxBudgetWeb "https://h".toList 3 2 10).queue = [] ∧
    (hfCrawl cxBudgetWeb "https://h".toList 3 2 10).fetched.length = 4 ∧
    ¬ ((hfCrawl cxBudgetWeb "https://h".toList 3 2 10).fetched.length ≤ 2) :=
  ⟨by decide, by decide, by decide⟩

theorem adjFetchFree_append {tr tail : List Event} (h : adjFetchFree tr)
    (hg : goodTail tail) : adjFetchFree (tr ++ tail) := by
  unfold adjFetchFree at h ⊢
  rw [List.chain'_append]
  refine ⟨h, ?_, ?_⟩
  · rcases hg with rfl | rfl | ⟨u, rfl⟩
    · exact List.chain'_nil
    · exact List.chain'_singleton _
    · exact List.chain'_pair.mpr (Or.inl rfl)
  · intro x _ y hy
    rcases hg with rfl | rfl | ⟨u, rfl⟩
    · simp at hy
    · simp at hy
      subst hy
      exact Or.inr rfl
    · simp at hy
      subst hy
      exact Or.inr rfl

/-- C5 (amended): in both crawl_hospital_website variants a delay precedes
every fetch, so the trace never holds two adjacent fetch events: an
inter-request delay elapses between any two consecutive fetches of one
crawl session. In crawl_hospital_site the delay runs only after a fetch
that returned HTTP 200 and raised nothing, so a failed fetch may be
followed immediately by another fetch (see the counterexample). -/
theorem C5_delay_between_fetches (w : CrawlWeb) (url : Text)
    (maxDepth maxPages fuel : Nat) :
    adjFetchFree (hfCrawl w url maxDepth maxPages fuel).trace ∧
    adjFetchFree (hcCrawl w url maxDepth maxPages fuel).trace := by
  constructor
  · unfold hfCrawl
    split
    · exact List.chain'_nil
    · refine @crawlRun_pres (fun s => adjFetchFree s.trace) _ maxPages
        (fun s h => ?_) fuel _ List.chain'_nil
      obtain ⟨tail, heq, hg⟩ := (hfCrawlStep_spec w _ maxDepth s).2.2.2.2
      rw [heq]
      exact adjFetchFree_append h hg
  · unfold hcCrawl
    split
    · exact List.chain'_nil
    · refine @crawlRun_pres (fun s => adjFetchFree s.trace) _ maxPages
        (fun s h => ?_) fuel _ List.chain'_nil
      obtain ⟨tail, heq, hg⟩ := (hcCrawlStep_spec w _ maxDepth s).2.2.2.2
      rw [heq]
      exact adjFetchFree_append h hg

/-- C5 counterexample: in crawl_hospital_site the delay is skipped when the
fetch does not return HTTP 200, so the trace of this concrete crawl holds
two adjacent fetches with no delay between them. -/
theorem C5_counterexample :
    (wcCrawl cxDelayWeb (fun _ => none) "https://h".toList "99213".toList 5 10).trace =
      [Event.fetch "https://h".toList, Event.sleep,
       Event.fetch "u1".toList, Event.fetch "u2".toList] ∧
    ¬ adjFetchFree
      (wcCrawl cxDelayWeb (fun _ => none) "https://h".toList "99213".toList 5 10).trace := by
  have h1 : (wcCrawl cxDelayWeb (fun _ => none) "https://h".toList "99213".toList 5 10).trace =
      [Event.fetch "https://h".toList, Event.sleep,
       Event.fetch "u1".toList, Event.fetch "u2".toList] := by decide
  refine ⟨h1, ?_⟩
  rw [h1]
  simp [adjFetchFree, List.chain'_cons]

theorem score_foldl (lt ut : Text) (ks : List Text) (init : Nat) :
    ks.foldl (fun p kw =>
      let p := if containsT lt kw then p + 10 else p
      if containsT ut kw then p + 5 else p) init
    = init + 10 * ks.countP (fun kw => containsT lt kw)
        + 5 * ks.countP (fun kw => containsT ut kw) := by
  induction ks generalizing init with
  | nil => simp
  | cons k ks ih =>
    simp only [List.foldl_cons, List.countP_cons]
    rw [ih]
    by_cases h1 : containsT lt k <;> by_cases h2 : containsT ut k <;>
      simp [h1, h2] <;> ring

theorem if_add_bonus (c d : Bool) (x k : Nat) :
    (if c = true then (if d = true then x + k else x) else x) =
      x + (if (c && d) = true then k else 0) := by
  cases c <;> cases d <;> simp

theorem wcScore_eq_claimScore (cpt lt ut : Text) :
    wcScore cpt lt ut = claimScore cpt lt ut := by
  unfold wcScore claimScore
  dsimp only
  rw [score_foldl, if_add_bonus, if_add_bonus]

/-- C6: for every link surviving the pre-filter, the priority assigned by
_extract_and_prioritize_links equals the claimed sum (50 for the code in
anchor text or URL path, 10 per cost keyword in the anchor text, 5 per cost
keyword in the path, 15 for a PDF with a cost keyword in its anchor, 20 for
a machine-readable extension with a cost keyword in its anchor), and the
returned list is sorted descending by that score. -/
theorem C6_link_priorities (w : WcWeb) (baseUrl baseDomain cpt : Text)
    (raws : List RawLink) :
    wcPrioritize w baseUrl baseDomain cpt raws =
      List.insertionSort scoreGE
        (raws.filterMap (wcScoredLink w baseUrl baseDomain cpt claimScore)) ∧
    List.Sorted scoreGE (wcPrioritize w baseUrl baseDomain cpt raws) := by
  constructor
  · unfold wcPrioritize
    have : wcScoredLink w baseUrl baseDomain cpt wcScore =
        wcScoredLink w baseUrl baseDomain cpt claimScore := by
      funext l
      simp only [wcScoredLink, wcScore_eq_claimScore]
    rw [this]
  · exact List.sorted_insertionSort scoreGE _

/-- C7 (amended): the structured-file extractor is a total function into an
optional candidate (every exception source sits under a try of the source,
so nothing propagates to the caller), and it yields no candidate on a fetch
failure, a non-200 status, an unsupported declared type, and a parse
failure of the JSON, Excel or XML parser; a CSV whose pandas parse fails
under every encoding falls back to the manual line-by-line scan and yields
no candidate only when that scan also finds nothing (see the
counterexample). -/
theorem C7_parse_failure_none {β : Type} (o : PPOracles β) (url ftype cpt : Text) :
    (o.fetch url = POut.err → parseCostFile o url ftype cpt = none) ∧
    (∀ status content, o.fetch url = POut.ok (status, content) → status ≠ 200 →
      parseCostFile o url ftype cpt = none) ∧
    (∀ status content, o.fetch url = POut.ok (status, content) →
      lowerT ftype ∉ ["csv".toList, "xlsx".toList, "xls".toList,
        "json".toList, "xml".toList] →
      parseCostFile o url ftype cpt = none) ∧
    (∀ status content, o.fetch url = POut.ok (status, content) →
      lowerT ftype = "json".toList → o.jsonLoads content = POut.err →
      parseCostFile o url ftype cpt = none) ∧
    (∀ status content, o.fetch url = POut.ok (status, content) →
      (lowerT ftype = "xlsx".toList ∨ lowerT ftype = "xls".toList) →
      o.readExcel content = POut.err →
      parseCostFile o url ftype cpt = none) ∧
    (∀ status content, o.fetch url = POut.ok (status, content) →
      lowerT ftype = "xml".toList → o.xmlSoup content = POut.err →
      parseCostFile o url ftype cpt = none) ∧
    (∀ status content, o.fetch url = POut.ok (status, content) →
      lowerT ftype = "csv".toList → readCsvAll o content = none →
      manualScan (o.csvRows (o.decodeIgnore content)) cpt = none →
      parseCostFile o url ftype cpt = none) := by
  refine ⟨?_, ?_, ?_, ?_, ?_, ?_, ?_⟩
  · intro hf
    unfold parseCostFile
    rw [hf]
  · intro status content hf hs
    unfold parseCostFile
    rw [hf]
    dsimp only
    have h200 : (status != 200) = true := by simpa using hs
    rw [if_pos h200]
  · intro status content hf hns
    have h1 : ¬ lowerT ftype = "csv".toList := fun h => hns (by simp [h])
    have h2 : ¬ (lowerT ftype = "xlsx".toList ∨ lowerT ftype = "xls".toList) := by
      rintro (h | h) <;> exact hns (by simp [h])
    have h3 : ¬ lowerT ftype = "json".toList := fun h => hns (by simp [h])
    have h4 : ¬ lowerT ftype = "xml".toList := fun h => hns (by simp [h])
    unfold parseCostFile
    rw [hf]
    dsimp only
    by_cases h200 : (status != 200) = true
    · rw [if_pos h200]
    · rw [if_neg h200, if_neg h1, if_neg h2, if_neg h3, if_neg h4]
  · intro status content hf hft hj
    have h1 : ¬ lowerT ftype = "csv".toList := by rw [hft]; decide
    have h2 : ¬ (lowerT ftype = "xlsx".toList ∨ lowerT ftype = "xls".toList) := by
      rw [hft]; decide
    unfold parseCostFile
    rw [hf]
    dsimp only
    by_cases h200 : (status != 200) = true
    · rw [if_pos h200]
    · rw [if_neg h200, if_neg h1, if_neg h2, if_pos hft]
      unfold parseJson
      rw [hj]
  · intro status content hf hft hx
    have h1 : ¬ lowerT ftype = "csv".toList := by
      rcases hft with h | h <;> rw [h] <;> decide
    unfold parseCostFile
    rw [hf]
    dsimp only
    by_cases h200 : (status != 200) = true
    · rw [if_pos h200]
    · rw [if_neg h200, if_neg h1, if_pos hft]
      unfold parseExcel
      rw [hx]
  · intro status content hf hft hx
    have h1 : ¬ lowerT ftype = "csv".toList := by rw [hft]; decide
    have h2 : ¬ (lowerT ftype = "xlsx".toList ∨ lowerT ftype = "xls".toList) := by
      rw [hft]; decide
    have h3 : ¬ lowerT ftype = "json".toList := by rw [hft]; decide
    unfold parseCostFile
    rw [hf]
    dsimp only
    by_cases h200 : (status != 200) = true
    · rw [if_pos h200]
    · rw [if_neg h200, if_neg h1, if_neg h2, if_neg h3, if_pos hft]
      unfold parseXml
      rw [hx]
  · intro status content hf hft hall hman
    unfold parseCostFile
    rw [hf]
    dsimp only
    by_cases h200 : (status != 200) = true
    · rw [if_pos h200]
    · rw [if_neg h200, if_pos hft]
      unfold parseCsv
      rw [hall]
      exact hman

/-- C7 witness: with a fetch oracle that raises, parse_cost_file yields no
candidate. -/
theorem C7_parse_failure_none_witness :
    cxParseErr.fetch "u".toList = POut.err ∧
    parseCostFile cxParseErr "u".toList "csv".toList "99213".toList = none :=
  ⟨rfl, (C7_parse_failure_none cxParseErr "u".toList "csv".toList
    "99213".toList).1 rfl⟩

/-- C7 counterexample: when every pd.read_csv decoding attempt fails, the
for-else fallback of _parse_csv can still return a candidate, so a decode
failure does not imply the no-candidate result the claim states. -/
theorem C7_counterexample :
    readCsvAll cxParse () = none ∧
    parseCostFile cxParse "u".toList "csv".toList "99213".toList =
      some ⟨"found".toList, "$500.00".toList, "csv_manual".toList⟩ ∧
    parseCostFile cxParse "u".toList "csv".toList "99213".toList ≠ none :=
  ⟨rfl, by decide, by decide⟩

theorem lookupCE_setCE (res : List (Text × CodeEntry)) (k q : Text)
    (e : CodeEntry) :
    lookupCE (setCE res k e) q = if k = q then some e else lookupCE res q := by
  induction res with
  | nil =>
    simp only [setCE, lookupCE]
  | cons p rest ih =>
    obtain ⟨c, e0⟩ := p
    simp only [setCE]
    by_cases hc : c = k
    · subst hc
      rw [if_pos rfl]
      simp only [lookupCE]
      by_cases hq : c = q <;> simp [hq]
    · rw [if_neg hc]
      simp only [lookupCE]
      by_cases hq : c = q
      · rw [if_pos hq, if_pos hq, if_neg (fun h => hc (hq.trans h.symm))]
      · rw [if_neg hq, if_neg hq, ih]

theorem applyCE_consistent (res : List (Text × CodeEntry))
    (h : ∀ c, entryConsistent (lookupCE res c)) (u : CEUpdate) :
    ∀ c, entryConsistent (lookupCE (applyCE res u) c) := by
  intro c
  cases u with
  | setList code prices =>
    unfold applyCE
    dsimp only
    by_cases hp : prices.isEmpty
    · rw [if_pos hp]
      exact h c
    · rw [if_neg hp, lookupCE_setCE]
      by_cases hk : code = c
      · rw [if_pos hk]
        refine ⟨?_, rfl, rfl, rfl⟩
        intro hnil
        dsimp only at hnil
        rw [hnil] at hp
        exact hp rfl
      · rw [if_neg hk]
        exact h c
  | addPrice code p =>
    unfold applyCE
    dsimp only
    rcases hl : lookupCE res code with _ | e
    · dsimp only
      rw [lookupCE_setCE]
      by_cases hk : code = c
      · rw [if_pos hk]
        refine ⟨by simp, by simp [listMin], by simp [listMax], ?_⟩
        simp [listSum]
      · rw [if_neg hk]
        exact h c
    · dsimp only
      rw [lookupCE_setCE]
      by_cases hk : code = c
      · rw [if_pos hk]
        exact ⟨by simp, rfl, rfl, rfl⟩
      · rw [if_neg hk]
        exact h c

/-- C8: for every sequence of updates extract_costs performs on its results
dictionary, every entry stays consistent: its price list is nonempty, and
the stored min, max and average equal the minimum, maximum and arithmetic
mean of that list. -/
theorem C8_aggregate_consistency (us : List CEUpdate) (code : Text) :
    entryConsistent (lookupCE (runCE us) code) := by
  suffices h : ∀ res, (∀ c, entryConsistent (lookupCE res c)) →
      ∀ c, entryConsistent (lookupCE (us.foldl applyCE res) c) by
    refine h [] (fun c => ?_) code
    simp [lookupCE, entryConsistent]
  induction us with
  | nil => exact fun res h c => h c
  | cons u rest ih =>
    intro res h c
    exact ih (applyCE res u) (applyCE_consistent res h u) c

theorem hcExtract_invariant (pg : PageInfo) (cpt : Text) (proc : Option Text) :
    ((hcExtract pg cpt proc).found = true ↔
      (hcExtract pg cpt proc).price.isSome = true) ∧
    (hcExtract pg cpt proc).currency = "USD".toList := by
  unfold hcExtract
  dsimp only
  repeat' split
  all_goals simp [baseResult]

theorem hfExtract_invariant (pg : PageInfo) (cpt : Text) (proc : Option Text) :
    ((hfExtract pg cpt proc).found = true ↔
      (hfExtract pg cpt proc).price.isSome = true) ∧
    (hfExtract pg cpt proc).currency = "USD".toList := by
  unfold hfExtract
  dsimp only
  repeat' split
  all_goals simp [baseResult]

theorem ifFound_eq_some {r x : PriceResult}
    (h : (if x.found = true then some x else none) = some r) :
    r = x ∧ r.found = true := by
  split at h
  · cases h
    exact ⟨rfl, by assumption⟩
  · cases h

theorem probeOne_some {o : FppOracles} {baseUrl cpt : Text} {proc : Option Text}
    {path : Text} {r : PriceResult} (h : probeOne o baseUrl cpt proc path = some r) :
    r.found = true ∧ ∃ pg, r = hcExtract pg cpt proc := by
  unfold probeOne at h
  dsimp only at h
  split at h
  · cases h
  · split at h
    · split at h
      · obtain ⟨rfl, hf⟩ := ifFound_eq_some h
        exact ⟨hf, _, rfl⟩
      · cases h
    · cases h

theorem hcFPP_invariant (o : FppOracles) (url cpt : Text) (proc : Option Text)
    (d : Nat) :
    ((hcFPP o url cpt proc d).found = true ↔
      (hcFPP o url cpt proc d).price.isSome = true) ∧
    (hcFPP o url cpt proc d).currency = "USD".toList := by
  unfold hcFPP
  split
  · simp [baseResult]
  · dsimp only
    split
    · next r heq =>
      obtain ⟨path, _, hpo⟩ := firstSome_map_eq_some heq
      obtain ⟨hfound, pg, rfl⟩ := probeOne_some hpo
      refine ⟨⟨fun _ => ?_, fun _ => hfound⟩, (hcExtract_invariant pg cpt proc).2⟩
      exact (hcExtract_invariant pg cpt proc).1.mp hfound
    · split
      · next r heq =>
        obtain ⟨pg, _, hpo⟩ := firstSome_map_eq_some heq
        obtain ⟨rfl, hfound⟩ := ifFound_eq_some hpo
        refine ⟨⟨fun _ => ?_, fun _ => hfound⟩, (hcExtract_invariant pg cpt proc).2⟩
        exact (hcExtract_invariant pg cpt proc).1.mp hfound
      · repeat' split
        all_goals simp [baseResult]

theorem hfFPP_invariant (o : FppOracles) (url cpt : Text) (proc : Option Text)
    (d : Nat) :
    ((hfFPP o url cpt proc d).found = true ↔
      (hfFPP o url cpt proc d).price.isSome = true) ∧
    (hfFPP o url cpt proc d).currency = "USD".toList := by
  unfold hfFPP
  split
  · simp [baseResult]
  · dsimp only
    split
    · next r heq =>
      obtain ⟨pg, _, hpo⟩ := firstSome_map_eq_some heq
      obtain ⟨rfl, hfound⟩ := ifFound_eq_some hpo
      refine ⟨⟨fun _ => ?_, fun _ => hfound⟩, (hfExtract_invariant pg cpt proc).2⟩
      exact (hfExtract_invariant pg cpt proc).1.mp hfound
    · repeat' split
      all_goals simp [baseResult]

/-- C9: every result dictionary of both find_procedure_pricing variants has
found equal to true exactly when price holds a number, carries the currency
string USD, and a missing URL yields the not-found dictionary with no price,
source or context for every oracle, hence without any network activity. -/
theorem C9_result_shape (o : FppOracles) (url cpt : Text) (proc : Option Text)
    (d : Nat) :
    ((hcFPP o url cpt proc d).found = true ↔
      (hcFPP o url cpt proc d).price.isSome = true) ∧
    (hcFPP o url cpt proc d).currency = "USD".toList ∧
    ((hfFPP o url cpt proc d).found = true ↔
      (hfFPP o url cpt proc d).price.isSome = true) ∧
    (hfFPP o url cpt proc d).currency = "USD".toList ∧
    hcFPP o [] cpt proc d = baseResult none ∧
    hfFPP o [] cpt proc d = baseResult none :=
  ⟨(hcFPP_invariant o url cpt proc d).1, (hcFPP_invariant o url cpt proc d).2,
   (hfFPP_invariant o url cpt proc d).1, (hfFPP_invariant o url cpt proc d).2,
   rfl, rfl⟩

theorem geoFold (cc : ℚ × ℚ) (hs : List Hospital) (acc : List Hospital) :
    hs.foldl (geoAssign cc) ⟨acc, [], [], []⟩ =
      ⟨acc ++ hs.filter hasCoords, [], [], []⟩ := by
  induction hs generalizing acc with
  | nil => simp
  | cons h hs ih =>
    rw [List.foldl_cons]
    rcases hla : h.latitude with _ | la <;> rcases hlo : h.longitude with _ | lo
    · have hstep : geoAssign cc ⟨acc, [], [], []⟩ h = ⟨acc, [], [], []⟩ := by
        unfold geoAssign; rw [hla]
      rw [hstep, ih]
      simp [hasCoords, hla]
    · have hstep : geoAssign cc ⟨acc, [], [], []⟩ h = ⟨acc, [], [], []⟩ := by
        unfold geoAssign; rw [hla]
      rw [hstep, ih]
      simp [hasCoords, hla]
    · have hstep : geoAssign cc ⟨acc, [], [], []⟩ h = ⟨acc, [], [], []⟩ := by
        unfold geoAssign; rw [hla, hlo]
      rw [hstep, ih]
      simp [hasCoords, hla, hlo]
    · have hstep : geoAssign cc ⟨acc, [], [], []⟩ h = ⟨acc ++ [h], [], [], []⟩ := by
        unfold geoAssign
        rw [hla, hlo]
        dsimp only [calculate_distance]
        rw [if_pos (by norm_num : (1 : ℚ) ≤ 5)]
      rw [hstep, ih]
      simp [hasCoords, hla, hlo]

/-- C10: calculate_distance is the placeholder constant 1 for every pair of
coordinates, so analyze_geographic_distribution puts every hospital with
coordinates in the zero-to-five-miles group and leaves the other three
groups empty; when geocoding fails it yields none. -/
theorem C10_distance_placeholder (a b c d : ℚ) (cc : ℚ × ℚ)
    (hs : List Hospital) :
    calculate_distance a b c d = 1 ∧
    analyzeGeographicDistribution (some cc) hs =
      some ⟨hs.filter hasCoords, [], [], []⟩ ∧
    analyzeGeographicDistribution none hs = none := by
  refine ⟨rfl, ?_, rfl⟩
  unfold analyzeGeographicDistribution
  dsimp only
  rw [geoFold]
  simp

end HCWC
